import Mathlib

/-!
Verification development for the OpenAPI sync core (oas server): a shallow
embedding of the normalizing parser, dependency-graph engine, diff engine and
cache-validity logic, with theorems checking the specification claims.

Modelling conventions:
* Rust `HashMap<String, V>` is modelled as an association list
  `List (String × V)` with first-match lookup and overwrite-on-insert
  (`insertAssoc`), matching map semantics up to iteration order.
* Rust `HashSet<String>` is modelled as a `List String` maintained
  duplicate-free by `insertNew` (HashSet insertion), up to iteration order.
  Set-iteration order is unspecified in Rust, so claims are stated up to
  membership and counts, never element order.
* Rust `String` is Lean `String`; byte-order comparison of UTF-8 strings
  (used by `Vec::sort` on ref names) coincides with code-point lexicographic
  order, modelled by `charsLe` below.
* JSON documents (`serde_json::Value`) are modelled by the `Json` inductive;
  numeric payloads are carried as `Int` (no claim inspects numeric values).
-/

namespace Oas

/-- Association-list lookup, first match: models `HashMap::get`. -/
def lookupA {β : Type} (m : List (String × β)) (k : String) : Option β :=
  match m with
  | [] => none
  | (k₂, v) :: rest => if k₂ = k then some v else lookupA rest k

/-- Association-list insert with overwrite: models `HashMap::insert`. -/
def insertAssoc {β : Type} (m : List (String × β)) (k : String) (v : β) :
    List (String × β) :=
  if m.any (fun e => e.1 = k) then
    m.map (fun e => if e.1 = k then (k, v) else e)
  else m ++ [(k, v)]

/-- Set insertion on a duplicate-free list: models `HashSet::insert`. -/
def insertNew (l : List String) (x : String) : List String :=
  if x ∈ l then l else x :: l

/-- Insert every element of `xs`: models `HashSet::extend`. -/
def insertAll (acc : List String) (xs : List String) : List String :=
  xs.foldl insertNew acc

/-- Byte-order comparison of char lists; for valid UTF-8, Rust byte order on
`String` equals code-point lexicographic order, which this computes. -/
def charsLe : List Char → List Char → Bool
  | [], _ => true
  | _ :: _, [] => false
  | a :: as, b :: bs => if a < b then true else if b < a then false else charsLe as bs

/-- The order used by `Vec::<String>::sort`, as a proposition. -/
def strleP (a b : String) : Prop := charsLe a.data b.data = true

instance : DecidableRel strleP := fun _ _ => inferInstanceAs (Decidable (_ = true))

/-- Removal of adjacent duplicates: models `Vec::dedup`. -/
def dedupAdjacent : List String → List String
  | [] => []
  | [a] => [a]
  | a :: b :: rest =>
    if a = b then dedupAdjacent (b :: rest) else a :: dedupAdjacent (b :: rest)

/-- A single-quote character, written without an apostrophe literal. -/
def squote : String := String.mk [Char.ofNat 39]

/-- The structural JSON value model (`serde_json::Value`). -/
inductive Json where
  | null : Json
  | bool (b : Bool) : Json
  | num (n : Int) : Json
  | str (s : String) : Json
  | arr (elems : List Json) : Json
  | obj (fields : List (String × Json)) : Json

/-- Field lookup in an object field list (`serde_json::Map::get`). -/
def lookupField (fields : List (String × Json)) (k : String) : Option Json :=
  match fields with
  | [] => none
  | (k₂, v) :: rest => if k₂ = k then some v else lookupField rest k

/-- `value.get(k)`: field lookup, `none` on non-objects. -/
def jGet : Json → String → Option Json
  | .obj fields, k => lookupField fields k
  | _, _ => none

/-- `value.get(k).and_then(|v| v.as_str())`. -/
def jGetStr (j : Json) (k : String) : Option String :=
  match jGet j k with
  | some (.str s) => some s
  | _ => none

/-- `value.get(k).and_then(|v| v.as_array())`. -/
def jGetArr (j : Json) (k : String) : Option (List Json) :=
  match jGet j k with
  | some (.arr a) => some a
  | _ => none

/-- `value.get(k).and_then(|v| v.as_object())`. -/
def jGetFields (j : Json) (k : String) : Option (List (String × Json)) :=
  match jGet j k with
  | some (.obj f) => some f
  | _ => none

/-- `value.get(k).and_then(|v| v.as_bool())`. -/
def jGetBool (j : Json) (k : String) : Option Bool :=
  match jGet j k with
  | some (.bool b) => some b
  | _ => none

/-- `value.as_object()`. -/
def asFields : Json → Option (List (String × Json))
  | .obj f => some f
  | _ => none

/-- `value.as_str().map(String::from)`. -/
def asStr : Json → Option String
  | .str s => some s
  | _ => none

/-- Leading-segment test on char lists (`str::starts_with`). -/
def leadsWith : List Char → List Char → Bool
  | [], _ => true
  | _ :: _, [] => false
  | p :: ps, c :: cs => p = c && leadsWith ps cs

/-- Replacement of all non-overlapping occurrences of `pat` (nonempty) by
`rep`, scanning left to right: models `str::replace`. The `Nat` argument is
a fuel bound; callers pass the length of the scanned list, which always
suffices because every step consumes at least one character, so the
fuel-exhaustion line is never reached from `replaceStr` below. -/
def replaceAllF (pat rep : List Char) : Nat → List Char → List Char
  | _, [] => []
  | 0, s => s
  | fuel + 1, c :: rest =>
    if pat ≠ [] ∧ leadsWith pat (c :: rest) then
      rep ++ replaceAllF pat rep fuel (List.drop (pat.length - 1) rest)
    else
      c :: replaceAllF pat rep fuel rest

/-- `s.replace(pat, rep)` on Lean strings. -/
def replaceStr (s pat rep : String) : String :=
  String.mk (replaceAllF pat.data rep.data s.data.length s.data)

/-- HTTP methods (`HttpMethod`). -/
inductive HttpMethod where
  | get | post | put | patch | delete | head | options | trace
deriving DecidableEq, Repr

/-- Lowercased rendering of a method: `method.to_string().to_lowercase()`. -/
def methodLower : HttpMethod → String
  | .get => "get"
  | .post => "post"
  | .put => "put"
  | .patch => "patch"
  | .delete => "delete"
  | .head => "head"
  | .options => "options"
  | .trace => "trace"

/-- Parameter locations (`ParameterLocation`). -/
inductive ParameterLocation where
  | path | query | header | cookie
deriving DecidableEq, Repr

/-- `Parameter`. -/
structure Parameter where
  name : String
  location : ParameterLocation
  required : Bool
  description : Option String
  schema_ref : Option String
  schema_type : Option String
deriving DecidableEq, Repr

/-- `RequestBody`. -/
structure RequestBody where
  required : Bool
  description : Option String
  content_types : List String
  schema_ref : Option String
deriving DecidableEq, Repr

/-- `Response`. -/
structure Response where
  status_code : String
  description : Option String
  content_types : List String
  schema_ref : Option String
deriving DecidableEq, Repr

/-- `SchemaType`: the closed sum of schema shapes. Constructor names carry a
`T` suffix where the Rust variant name would clash with a Lean type. -/
inductive SchemaType where
  | strT (format : Option String) (enum_values : Option (List String))
  | numT (format : Option String)
  | intT (format : Option String)
  | boolT
  | arrT (items : SchemaType)
  | objT (properties : List (String × SchemaType)) (required : List String)
  | ref (reference : String)
  | oneOf (variants : List SchemaType)
  | anyOf (variants : List SchemaType)
  | allOf (variants : List SchemaType)
  | unknown

/-- `Schema`. -/
structure Schema where
  name : String
  schema_type : SchemaType
  description : Option String
  refs : List String
  hash : String

/-- `Endpoint`; `responses` is the status-code map. -/
structure Endpoint where
  path : String
  method : HttpMethod
  operation_id : Option String
  summary : Option String
  description : Option String
  tags : List String
  parameters : List Parameter
  request_body : Option RequestBody
  responses : List (String × Response)
  deprecated : Bool
  hash : String
  schema_refs : List String
deriving DecidableEq, Repr

/-- `Endpoint::key()`: lowercase method, colon, path. -/
def Endpoint.key (e : Endpoint) : String := methodLower e.method ++ ":" ++ e.path

/-- Supported versions (`OpenApiVersion`). -/
inductive OpenApiVersion where
  | swagger2 | openApi30 | openApi31
deriving DecidableEq, Repr

/-- `SpecMetadata`. -/
structure SpecMetadata where
  title : String
  version : String
  description : Option String
  openapi_version : OpenApiVersion
  endpoint_count : Nat
  schema_count : Nat
  tag_count : Nat
deriving Repr

/-- `ParsedSpec`: the content model; endpoint and schema maps are association
lists with unique keys. -/
structure ParsedSpec where
  metadata : SpecMetadata
  endpoints : List (String × Endpoint)
  schemas : List (String × Schema)
  tags : List String
  spec_hash : String
  source : String

/-- `OasError`: the full error taxonomy of `types/error.rs`. -/
inductive OasError where
  | connectionFailed (msg : String)
  | timeout (ms : Nat)
  | httpError (status : Nat) (message : String)
  | sslError (msg : String)
  | invalidJson (msg : String)
  | invalidYaml (msg : String)
  | invalidOpenApi (msg : String)
  | unsupportedVersion (v : String)
  | unresolvedRef (r : String)
  | circularRef (r : String)
  | unsupportedFeature (f : String)
  | fileNotFound (p : String)
  | permissionDenied (p : String)
  | readError (msg : String)
  | writeError (msg : String)
  | pathTraversal (p : String)
  | patternDetectionFailed (msg : String)
  | templateError (msg : String)
  | invalidIdentifier (i : String)
  | duplicateIdentifier (i : String)
  | configNotFound (p : String)
  | invalidConfig (msg : String)
  | missingField (f : String)
  | cacheNotFound
  | cacheCorrupted (msg : String)
  | cacheWriteFailed (msg : String)
deriving DecidableEq, Repr

/-- `OasResult`. -/
abbrev OasResult (α : Type) : Type := Except OasError α

/-- `HttpCacheInfo`. -/
structure HttpCacheInfo where
  etag : Option String
  last_modified : Option String
deriving DecidableEq, Repr

/-- `LocalCacheInfo`. -/
structure LocalCacheInfo where
  mtime : Option String
deriving DecidableEq, Repr

/-- `CachedMeta`. -/
structure CachedMeta where
  title : Option String
  version : Option String
  openapi_version : Option String
  endpoint_count : Nat
  schema_count : Nat
deriving DecidableEq, Repr

/-- `OasCache`: the persisted cache record. -/
structure OasCache where
  version : String
  last_fetch : String
  spec_hash : String
  source : String
  ttl_seconds : Nat
  http_cache : HttpCacheInfo
  local_cache : LocalCacheInfo
  meta : CachedMeta
deriving DecidableEq, Repr

/-- `DependencyGraph`: four string-keyed adjacency maps. -/
structure DependencyGraph where
  schema_to_paths : List (String × List String)
  path_to_schemas : List (String × List String)
  schema_to_schemas : List (String × List String)
  schema_refs : List (String × List String)

/-- Set-valued map read: the stored set, or the empty set for unknown keys. -/
def getD (m : List (String × List String)) (k : String) : List String :=
  (lookupA m k).getD []

/-- Insert `v` into the set stored at `k`, creating it if absent: models
`map.entry(k).or_default().insert(v)`. -/
def mapInsert (m : List (String × List String)) (k v : String) :
    List (String × List String) :=
  if m.any (fun e => e.1 = k) then
    m.map (fun e => if e.1 = k then (e.1, insertNew e.2 v) else e)
  else m ++ [(k, [v])]

/-- `DependencyGraph::new`. -/
def DependencyGraph.new : DependencyGraph := ⟨[], [], [], []⟩

/-- `DependencyGraph::add_path_schema_dep`. -/
def DependencyGraph.add_path_schema_dep (g : DependencyGraph)
    (path schema : String) : DependencyGraph :=
  { g with
    path_to_schemas := mapInsert g.path_to_schemas path schema
    schema_to_paths := mapInsert g.schema_to_paths schema path }

/-- `DependencyGraph::add_schema_schema_dep`. -/
def DependencyGraph.add_schema_schema_dep (g : DependencyGraph)
    (from_schema to_schema : String) : DependencyGraph :=
  { g with
    schema_to_schemas := mapInsert g.schema_to_schemas from_schema to_schema
    schema_refs := mapInsert g.schema_refs to_schema from_schema }

/-- The keys of an adjacency map, as a finite set (termination measure). -/
def keysFinset (m : List (String × List String)) : Finset String :=
  (m.map (fun e => e.1)).toFinset

/-- The common worklist renderer of the three recursive graph collectors
(`collect_affected_paths_recursive`, `collect_schema_dependents_recursive`
and `collect_schema_deps_recursive`). Each source procedure, at a node `s`
not yet visited, marks `s` visited, adds `out s` to its accumulator and
recurses into `getD adj s`; the explicit worklist here performs exactly the
same visits in depth-first order, so visited set and accumulator coincide
with the recursive original. The visited-set discipline of the source is what
makes the recursion well-founded; the measure is the number of unvisited map
keys, tie-broken by worklist length. -/
def dfsCollect (adj : List (String × List String)) (out : String → List String)
    (work : List String) (visited : List String) (acc : List String) :
    List String :=
  match work with
  | [] => acc
  | s :: rest =>
    if s ∈ visited then dfsCollect adj out rest visited acc
    else dfsCollect adj out (getD adj s ++ rest) (s :: visited)
        (insertAll acc (out s))
termination_by ((keysFinset adj \ visited.toFinset).card, work.length)
decreasing_by
  · exact Prod.Lex.right _ (Nat.lt_succ_self _)
  · rename_i hs
    by_cases hk : s ∈ keysFinset adj
    · apply Prod.Lex.left
      apply Finset.card_lt_card
      constructor
      · intro x hx
        simp only [Finset.mem_sdiff, List.toFinset_cons, Finset.mem_insert] at hx ⊢
        exact ⟨hx.1, fun h => hx.2 (Or.inr h)⟩
      · intro hsub
        have hmem : s ∈ keysFinset adj \ visited.toFinset := by
          simp only [Finset.mem_sdiff, List.mem_toFinset]
          exact ⟨hk, hs⟩
        have := hsub hmem
        simp only [Finset.mem_sdiff, List.toFinset_cons, Finset.mem_insert] at this
        exact this.2 (Or.inl trivial)
    · have hgen : ∀ (m : List (String × List String)),
          s ∉ keysFinset m → lookupA m s = none := by
        intro m
        induction m with
        | nil => intro _; rfl
        | cons e rest ih =>
          obtain ⟨k₂, v⟩ := e
          intro hk₂
          simp only [keysFinset, List.map_cons, List.toFinset_cons,
            Finset.mem_insert, List.mem_toFinset, not_or] at hk₂
          simp only [lookupA]
          rw [if_neg (fun h => hk₂.1 h.symm)]
          exact ih (by
            simp only [keysFinset, List.mem_toFinset]
            exact hk₂.2)
      have hempty : getD adj s = [] := by simp [getD, hgen adj hk]
      have hset : keysFinset adj \ (s :: visited).toFinset
          = keysFinset adj \ visited.toFinset := by
        ext x
        simp only [Finset.mem_sdiff, List.toFinset_cons, Finset.mem_insert,
          not_or]
        constructor
        · rintro ⟨h1, _, h3⟩
          exact ⟨h1, h3⟩
        · rintro ⟨h1, h3⟩
          refine ⟨h1, fun he => ?_, h3⟩
          rw [he] at h1
          simp only [keysFinset, List.mem_toFinset] at hk h1
          exact hk h1
      rw [hset, hempty]
      exact Prod.Lex.right _ (by simp)

/-- `DependencyGraph::get_affected_paths`: endpoints of the visited schema,
recursing into reverse-reference neighbours. -/
def DependencyGraph.get_affected_paths (g : DependencyGraph) (schema : String) :
    List String :=
  dfsCollect g.schema_refs (fun s => getD g.schema_to_paths s) [schema] [] []

/-- `DependencyGraph::get_schema_dependents`: reverse-reference closure; at
each visited schema the referencing schemas themselves are collected. -/
def DependencyGraph.get_schema_dependents (g : DependencyGraph)
    (schema : String) : List String :=
  dfsCollect g.schema_refs (fun s => getD g.schema_refs s) [schema] [] []

/-- `DependencyGraph::get_path_schemas`: forward closure from each schema the
path uses directly; the visited set is fresh per direct schema, the collected
set is shared, exactly as in the source. -/
def DependencyGraph.get_path_schemas (g : DependencyGraph) (path : String) :
    List String :=
  (getD g.path_to_schemas path).foldl
    (fun acc d => dfsCollect g.schema_to_schemas (fun s => [s]) [d] [] acc) []

/-- `DependencyDirection`. -/
inductive DependencyDirection where
  | downstream | upstream | both
deriving DecidableEq, Repr

/-- `DependencyQueryResult`. -/
structure DependencyQueryResult where
  target : String
  is_schema : Bool
  direction : DependencyDirection
  affected_paths : List String
  affected_schemas : List String
  dependency_chain : List String

/-- `DependencyGraph::query`. -/
def DependencyGraph.query (g : DependencyGraph) (target : String)
    (direction : DependencyDirection) (is_schema : Bool) :
    DependencyQueryResult :=
  if is_schema then
    match direction with
    | .downstream =>
      { target := target, is_schema := is_schema, direction := direction
        affected_paths := g.get_affected_paths target
        affected_schemas := g.get_schema_dependents target
        dependency_chain := [] }
    | .upstream =>
      { target := target, is_schema := is_schema, direction := direction
        affected_paths := []
        affected_schemas := getD g.schema_to_schemas target
        dependency_chain := [] }
    | .both =>
      { target := target, is_schema := is_schema, direction := direction
        affected_paths := g.get_affected_paths target
        affected_schemas :=
          insertAll (g.get_schema_dependents target)
            (getD g.schema_to_schemas target)
        dependency_chain := [] }
  else
    { target := target, is_schema := is_schema, direction := direction
      affected_paths := []
      affected_schemas := g.get_path_schemas target
      dependency_chain := [] }

/-- `GraphBuilder::build`: schema-to-schema edges from every schema entry,
then path-to-schema edges from every endpoint entry. -/
def GraphBuilder.build (spec : ParsedSpec) : DependencyGraph :=
  let g₁ := spec.schemas.foldl
    (fun g e => e.2.refs.foldl
      (fun g r => g.add_schema_schema_dep e.1 r) g)
    DependencyGraph.new
  spec.endpoints.foldl
    (fun g e => e.2.schema_refs.foldl
      (fun g r => g.add_path_schema_dep e.1 r) g)
    g₁

/-- Well-formedness of a graph as it exists in Rust: every stored value set
is duplicate-free (it is a `HashSet`). -/
def WFGraph (g : DependencyGraph) : Prop :=
  (∀ e ∈ g.schema_to_paths, e.2.Nodup) ∧
  (∀ e ∈ g.path_to_schemas, e.2.Nodup) ∧
  (∀ e ∈ g.schema_to_schemas, e.2.Nodup) ∧
  (∀ e ∈ g.schema_refs, e.2.Nodup)

instance (g : DependencyGraph) : Decidable (WFGraph g) := by
  unfold WFGraph
  infer_instance

/-- Default TTL (`DEFAULT_TTL_SECONDS`). -/
def DEFAULT_TTL_SECONDS : Nat := 86400

/-- `CacheManager::is_cache_expired`. The external clock and RFC-3339
timestamp parser (`chrono`) are passed in as parameters: `parseTs` stands for
`DateTime::parse_from_rfc3339` projected to whole seconds on the UTC line, and
`now` for `Utc::now()` in the same scale, so `now - t` is
`signed_duration_since(..).num_seconds()`. The decision logic is the
translation of the Rust body. -/
def is_cache_expired (parseTs : String → Option Int) (now : Int)
    (cache : OasCache) : Bool :=
  match parseTs cache.last_fetch with
  | none => true
  | some t => now - t > (cache.ttl_seconds : Int)

/-- `ChangeType` (private enum of the diff module). -/
inductive ChangeType where
  | added
  | modified (changes : List String)
  | removed
  | unchanged
deriving DecidableEq, Repr

/-- `EndpointChange`. -/
structure EndpointChange where
  key : String
  path : String
  method : HttpMethod
  operation_id : Option String
  tags : List String
  changes : List String
  affected_by_schemas : List String
deriving DecidableEq, Repr

/-- `SchemaChange`. -/
structure SchemaChange where
  name : String
  changes : List String
  affected_endpoints : List String
deriving DecidableEq, Repr

/-- `BreakingChangeCategory`. -/
inductive BreakingChangeCategory where
  | endpointRemoved
  | parameterAdded
  | parameterTypeChanged
  | responseTypeChanged
  | schemaRemoved
  | schemaFieldRemoved
  | schemaFieldTypeChanged
deriving DecidableEq, Repr

/-- `BreakingChange`. -/
structure BreakingChange where
  category : BreakingChangeCategory
  message : String
  location : String
deriving DecidableEq, Repr

/-- `SpecDiff`. -/
structure SpecDiff where
  added_endpoints : List EndpointChange
  modified_endpoints : List EndpointChange
  removed_endpoints : List EndpointChange
  unchanged_endpoints : Nat
  added_schemas : List SchemaChange
  modified_schemas : List SchemaChange
  removed_schemas : List SchemaChange
  unchanged_schemas : Nat
  breaking_changes : List BreakingChange
deriving DecidableEq, Repr

/-- `DiffEngine::compare_schema_details`: symmetric difference of the two
`refs` sets rendered as notes, or the generic note when empty. `HashSet`
difference iteration is modelled by first-occurrence deduplication. -/
def DiffEngine.compare_schema_details (old new : Schema) : List String :=
  let addedNotes := (new.refs.dedup.filter (fun r => r ∉ old.refs)).map
    (fun r => "Added reference to " ++ r)
  let removedNotes := (old.refs.dedup.filter (fun r => r ∉ new.refs)).map
    (fun r => "Removed reference to " ++ r)
  let changes := addedNotes ++ removedNotes
  if changes.isEmpty then ["Schema definition changed"] else changes

/-- The name-keyed parameter map built by `compare_endpoints`
(`iter().map(|p| (&p.name, p)).collect::<HashMap<_,_>>()`, later duplicates
overwriting earlier ones). -/
def paramsMap (ps : List Parameter) : List (String × Parameter) :=
  ps.foldl (fun m p => insertAssoc m p.name p) []

/-- `DiffEngine::compare_endpoints`: hash short-circuit, then parameter,
request-body and response deltas, with the generic fallback note. -/
def DiffEngine.compare_endpoints (old new : Endpoint) : List String :=
  if old.hash = new.hash then []
  else
    let oldParams := paramsMap old.parameters
    let newParams := paramsMap new.parameters
    let addedP := newParams.filterMap (fun e =>
      if (lookupA oldParams e.1).isNone && e.2.required then
        some ("Added required parameter: " ++ e.1)
      else none)
    let removedP := oldParams.filterMap (fun e =>
      if (lookupA newParams e.1).isNone then
        some ("Removed parameter: " ++ e.1)
      else none)
    let bodyNotes :=
      match old.request_body, new.request_body with
      | none, some _ => ["Added request body"]
      | some _, none => ["Removed request body"]
      | some ob, some nb =>
        if ob.schema_ref ≠ nb.schema_ref then ["Request body schema changed"]
        else []
      | none, none => []
    let oldResp := (old.responses.map (fun e => e.1)).dedup
    let newResp := (new.responses.map (fun e => e.1)).dedup
    let addedR := (newResp.filter (fun st => st ∉ oldResp)).map
      (fun st => "Added response: " ++ st)
    let removedR := (oldResp.filter (fun st => st ∉ newResp)).map
      (fun st => "Removed response: " ++ st)
    let changes := addedP ++ removedP ++ bodyNotes ++ addedR ++ removedR
    if changes.isEmpty then ["Endpoint definition changed"] else changes

/-- A placeholder endpoint standing for the value of a `HashMap` index
expression; every use in `diff` is at a key proved present. -/
def defaultEndpoint : Endpoint :=
  ⟨"", .get, none, none, none, [], [], none, [], false, "", []⟩

/-- A placeholder schema, same role as `defaultEndpoint`. -/
def defaultSchema : Schema := ⟨"", .unknown, none, [], ""⟩

/-- `spec.endpoints[key]` (index at a present key). -/
def getEndpointD (m : List (String × Endpoint)) (k : String) : Endpoint :=
  (lookupA m k).getD defaultEndpoint

/-- `spec.schemas[name]` (index at a present key). -/
def getSchemaD (m : List (String × Schema)) (k : String) : Schema :=
  (lookupA m k).getD defaultSchema

/-- `DiffEngine::compare_schemas`: classification of every schema name as
added, removed, modified or unchanged. Key-set iteration of the Rust
`HashSet`s is modelled by deduplicated key lists. -/
def DiffEngine.compare_schemas (old new : ParsedSpec) :
    List (String × ChangeType) :=
  let oldNames := (old.schemas.map (fun e => e.1)).dedup
  let newNames := (new.schemas.map (fun e => e.1)).dedup
  let addedL := (newNames.filter (fun n => n ∉ oldNames)).map
    (fun n => (n, ChangeType.added))
  let removedL := (oldNames.filter (fun n => n ∉ newNames)).map
    (fun n => (n, ChangeType.removed))
  let interL := (oldNames.filter (fun n => n ∈ newNames)).map (fun n =>
    let os := getSchemaD old.schemas n
    let ns := getSchemaD new.schemas n
    (n, if os.hash ≠ ns.hash then
        ChangeType.modified (DiffEngine.compare_schema_details os ns)
      else ChangeType.unchanged))
  addedL ++ removedL ++ interL

/-- Does the classification map mark `s` as modified
(`schema_changes.get(s).is_some_and(|c| matches!(c, Modified(_)))`)? -/
def isModifiedIn (sc : List (String × ChangeType)) (s : String) : Bool :=
  match lookupA sc s with
  | some (.modified _) => true
  | _ => false

/-- `DiffEngine::diff`. Schemas are compared first; removed schemas and
removed endpoints are the only sources of breaking-change entries. An
endpoint present in both specs is modified when its direct comparison is
nonempty or when one of the schemas in its new-side `schema_refs` is
classified modified. The source also computes a `schema_affected_endpoints`
set from the graph right after the schema loop; that local is never read
afterwards, so it has no counterpart here. -/
def DiffEngine.diff (old_spec new_spec : ParsedSpec)
    (graph : Option DependencyGraph) : SpecDiff :=
  let schemaChanges := DiffEngine.compare_schemas old_spec new_spec
  let added_schemas := schemaChanges.filterMap (fun e =>
    match e.2 with
    | .added => some ⟨e.1, ["New schema"], []⟩
    | _ => none)
  let modified_schemas := schemaChanges.filterMap (fun e =>
    match e.2 with
    | .modified chs =>
      some ⟨e.1, chs,
        match graph with
        | some g => g.get_affected_paths e.1
        | none => []⟩
    | _ => none)
  let removed_schemas := schemaChanges.filterMap (fun e =>
    match e.2 with
    | .removed => some ⟨e.1, ["Schema removed"], []⟩
    | _ => none)
  let unchanged_schemas := schemaChanges.countP (fun e =>
    match e.2 with
    | .unchanged => true
    | _ => false)
  let schemaBreaking : List BreakingChange := schemaChanges.filterMap (fun e =>
    match e.2 with
    | .removed =>
      some ⟨.schemaRemoved,
        "Schema " ++ squote ++ e.1 ++ squote ++ " was removed",
        "#/components/schemas/" ++ e.1⟩
    | _ => none)
  let oldKeys := (old_spec.endpoints.map (fun e => e.1)).dedup
  let newKeys := (new_spec.endpoints.map (fun e => e.1)).dedup
  let added_endpoints := (newKeys.filter (fun k => k ∉ oldKeys)).map (fun k =>
    let e := getEndpointD new_spec.endpoints k
    ⟨k, e.path, e.method, e.operation_id, e.tags, ["New endpoint"], []⟩)
  let removedKeys := oldKeys.filter (fun k => k ∉ newKeys)
  let removed_endpoints := removedKeys.map (fun k =>
    let e := getEndpointD old_spec.endpoints k
    ⟨k, e.path, e.method, e.operation_id, e.tags, ["Endpoint removed"], []⟩)
  let endpointBreaking : List BreakingChange := removedKeys.map (fun k =>
    let e := getEndpointD old_spec.endpoints k
    ⟨.endpointRemoved,
      "Endpoint " ++ squote ++ k ++ squote ++ " was removed", e.path⟩)
  let interResults : List (Option EndpointChange) :=
    (oldKeys.filter (fun k => k ∈ newKeys)).map (fun k =>
      let old_e := getEndpointD old_spec.endpoints k
      let new_e := getEndpointD new_spec.endpoints k
      let direct := DiffEngine.compare_endpoints old_e new_e
      let affected := new_e.schema_refs.filter (fun s =>
        isModifiedIn schemaChanges s)
      if direct.isEmpty && affected.isEmpty then none
      else
        some ⟨k, new_e.path, new_e.method, new_e.operation_id, new_e.tags,
          direct ++ affected.map (fun s => "Affected by schema change: " ++ s),
          affected⟩)
  { added_endpoints := added_endpoints
    modified_endpoints := interResults.filterMap id
    removed_endpoints := removed_endpoints
    unchanged_endpoints := interResults.countP (fun r => r.isNone)
    added_schemas := added_schemas
    modified_schemas := modified_schemas
    removed_schemas := removed_schemas
    unchanged_schemas := unchanged_schemas
    breaking_changes := schemaBreaking ++ endpointBreaking }

/-- Strips the version-specific ref head: the chained
`replace("#/definitions/", "").replace("#/components/schemas/", "")` of
`collect_refs`. -/
def cleanRef (s : String) : String :=
  replaceStr (replaceStr s "#/definitions/" "") "#/components/schemas/" ""

mutual

/-- `OpenApiParser::collect_refs`: on an object, record the cleaned `$ref`
string value if present, then recurse through every field value; on an
array, recurse through every element. -/
def collectRefs : Json → List String
  | .obj fields =>
    (match lookupField fields "$ref" with
     | some (.str s) => [cleanRef s]
     | _ => []) ++ collectRefsFields fields
  | .arr elems => collectRefsElems elems
  | _ => []

/-- Recursion of `collect_refs` over object field values. -/
def collectRefsFields : List (String × Json) → List String
  | [] => []
  | (_, v) :: rest => collectRefs v ++ collectRefsFields rest

/-- Recursion of `collect_refs` over array elements. -/
def collectRefsElems : List Json → List String
  | [] => []
  | v :: rest => collectRefs v ++ collectRefsElems rest

end

/-- `OpenApiParser::extract_refs`: collect, `sort`, `dedup`. The sort is
modelled by insertion sort over the byte order `strleP` (any stable
comparison sort yields the same sorted list). -/
def extractRefs (value : Json) : List String :=
  dedupAdjacent (List.insertionSort strleP (collectRefs value))

mutual

/-- Canonical serialization of a JSON value, standing for
`serde_json::to_string` inside `compute_hash` (string escaping is not
modelled; no claim inspects serialized text). -/
def serializeJson : Json → String
  | .null => "null"
  | .bool true => "true"
  | .bool false => "false"
  | .num n => toString n
  | .str s => "\"" ++ s ++ "\""
  | .arr elems => "[" ++ serializeJsonElems elems ++ "]"
  | .obj fields => "\x7b" ++ serializeJsonFields fields ++ "\x7d"

/-- Serialization of array elements, comma separated. -/
def serializeJsonElems : List Json → String
  | [] => ""
  | [v] => serializeJson v
  | v :: rest => serializeJson v ++ "," ++ serializeJsonElems rest

/-- Serialization of object fields, comma separated. -/
def serializeJsonFields : List (String × Json) → String
  | [] => ""
  | [(k, v)] => "\"" ++ k ++ "\":" ++ serializeJson v
  | (k, v) :: rest =>
    "\"" ++ k ++ "\":" ++ serializeJson v ++ "," ++ serializeJsonFields rest

end

/-- `OpenApiParser::compute_hash`: a deterministic digest of the canonical
serialization. The truncated SHA-256 hex encoding is not carried out — the
serialization itself is the digest — because no claim depends on digest
values, only on equality of the `hash` fields of whatever specs the diff
engine receives; determinism is preserved. -/
def computeHash (value : Json) : String := serializeJson value

/-- `OpenApiParser::parse_schema_type`: `$ref` first, then `oneOf`, `anyOf`,
`allOf`, then the `type` dispatch; `object` (or a missing `type`) requires a
`properties` field, otherwise the shape is `Unknown`. -/
def parseSchemaType (schema : Json) : SchemaType :=
  match jGetStr schema "$ref" with
  | some r => .ref (cleanRef r)
  | none =>
  match h₁ : jGetArr schema "oneOf" with
  | some vs => .oneOf (vs.attach.map (fun v => parseSchemaType v.1))
  | none =>
  match h₂ : jGetArr schema "anyOf" with
  | some vs => .anyOf (vs.attach.map (fun v => parseSchemaType v.1))
  | none =>
  match h₃ : jGetArr schema "allOf" with
  | some vs => .allOf (vs.attach.map (fun v => parseSchemaType v.1))
  | none =>
  match jGetStr schema "type" with
  | some "string" =>
    .strT (jGetStr schema "format")
      ((jGetArr schema "enum").map (fun arr => arr.filterMap asStr))
  | some "number" => .numT (jGetStr schema "format")
  | some "integer" => .intT (jGetStr schema "format")
  | some "boolean" => .boolT
  | some "array" =>
    .arrT
      (match h₄ : jGet schema "items" with
       | some it => parseSchemaType it
       | none => .unknown)
  | some "object" =>
    if (jGet schema "properties").isSome then
      .objT
        (match h₅ : jGetFields schema "properties" with
         | some props => props.attach.map (fun p => (p.1.1, parseSchemaType p.1.2))
         | none => [])
        (((jGetArr schema "required").map
          (fun arr => arr.filterMap asStr)).getD [])
    else .unknown
  | none =>
    if (jGet schema "properties").isSome then
      .objT
        (match h₆ : jGetFields schema "properties" with
         | some props => props.attach.map (fun p => (p.1.1, parseSchemaType p.1.2))
         | none => [])
        (((jGetArr schema "required").map
          (fun arr => arr.filterMap asStr)).getD [])
    else .unknown
  | some _ => .unknown
termination_by sizeOf schema
decreasing_by
  all_goals
    (have hlook : ∀ (fields : List (String × Json)) (k : String) (w : Json),
        lookupField fields k = some w → sizeOf w < 1 + sizeOf fields := by
      intro fields k w
      induction fields with
      | nil => intro h; exact absurd h (by simp [lookupField])
      | cons e rest ih =>
        obtain ⟨k₂, v₂⟩ := e
        simp only [lookupField]
        split
        · intro h
          cases h
          simp only [Prod.mk.sizeOf_spec, List.cons.sizeOf_spec]
          omega
        · intro h
          have := ih h
          simp only [List.cons.sizeOf_spec]
          omega
     have hget : ∀ (j : Json) (k : String) (w : Json),
        jGet j k = some w → sizeOf w < sizeOf j := by
      intro j k w hj
      cases j <;> simp only [jGet] at hj <;> try exact Option.noConfusion hj
      rename_i fields
      have := hlook fields k w hj
      simp only [Json.obj.sizeOf_spec]
      omega
     have harr : ∀ (j : Json) (k : String) (l : List Json),
        jGetArr j k = some l → sizeOf l < sizeOf j := by
      intro j k l hj
      simp only [jGetArr] at hj
      rcases hw : jGet j k with _ | w
      · rw [hw] at hj
        exact Option.noConfusion hj
      · rw [hw] at hj
        cases w <;> try exact Option.noConfusion hj
        rename_i elems
        injection hj with hinj
        have := hget j k (.arr elems) hw
        simp only [Json.arr.sizeOf_spec] at this
        rw [← hinj]
        omega
     have hfields : ∀ (j : Json) (k : String) (fs : List (String × Json)),
        jGetFields j k = some fs → sizeOf fs < sizeOf j := by
      intro j k fs hj
      simp only [jGetFields] at hj
      rcases hw : jGet j k with _ | w
      · rw [hw] at hj
        exact Option.noConfusion hj
      · rw [hw] at hj
        cases w <;> try exact Option.noConfusion hj
        rename_i fields₂
        injection hj with hinj
        have := hget j k (.obj fields₂) hw
        simp only [Json.obj.sizeOf_spec] at this
        rw [← hinj]
        omega
     first
     | exact lt_trans (List.sizeOf_lt_of_mem v.2) (harr _ _ _ h₁)
     | exact lt_trans (List.sizeOf_lt_of_mem v.2) (harr _ _ _ h₂)
     | exact lt_trans (List.sizeOf_lt_of_mem v.2) (harr _ _ _ h₃)
     | exact hget _ _ _ h₄
     | (obtain ⟨⟨a, b⟩, hp⟩ := p
        refine lt_trans (lt_trans ?_ (List.sizeOf_lt_of_mem hp)) (hfields _ _ _ h₅)
        simp only [Prod.mk.sizeOf_spec]
        omega)
     | (obtain ⟨⟨a, b⟩, hp⟩ := p
        refine lt_trans (lt_trans ?_ (List.sizeOf_lt_of_mem hp)) (hfields _ _ _ h₆)
        simp only [Prod.mk.sizeOf_spec]
        omega))

/-- `OpenApiParser::parse_http_method` (input lowercased). -/
def parseHttpMethod (method : String) : Option HttpMethod :=
  match String.mk (method.data.map Char.toLower) with
  | "get" => some .get
  | "post" => some .post
  | "put" => some .put
  | "patch" => some .patch
  | "delete" => some .delete
  | "head" => some .head
  | "options" => some .options
  | "trace" => some .trace
  | _ => none

/-- The strings-of-array reading used for `tags`, `consumes`, `produces`,
`required` and `enum` lists: `filter_map(|v| v.as_str().map(String::from))`. -/
def strArray (j : Json) (k : String) : Option (List String) :=
  (jGetArr j k).map (fun arr => arr.filterMap asStr)

/-- `OpenApiParser::parse_swagger2_parameters`: skips `body` parameters and
unknown locations (`cookie` included); `required` defaults to whether the
location is `path`. -/
def parseSwagger2Parameters (operation : Json) : List Parameter :=
  match jGetArr operation "parameters" with
  | none => []
  | some params => params.filterMap (fun param =>
    let inValue := (jGetStr param "in").getD ""
    if inValue = "body" then none
    else
      match
        (match inValue with
         | "path" => some ParameterLocation.path
         | "query" => some ParameterLocation.query
         | "header" => some ParameterLocation.header
         | _ => none) with
      | none => none
      | some location =>
        some
          { name := (jGetStr param "name").getD ""
            location := location
            required := (jGetBool param "required").getD
              (decide (location = ParameterLocation.path))
            description := jGetStr param "description"
            schema_ref := none
            schema_type := jGetStr param "type" })

/-- `OpenApiParser::parse_swagger2_body`: the first `in: body` parameter,
rendered as a request body; its schema ref strips only the Swagger head. -/
def parseSwagger2Body (operation : Json) : Option RequestBody :=
  match jGetArr operation "parameters" with
  | none => none
  | some params =>
    match params.find? (fun p => jGetStr p "in" == some "body") with
    | none => none
    | some param =>
      some
        { required := (jGetBool param "required").getD false
          description := jGetStr param "description"
          content_types := (strArray operation "consumes").getD
            ["application/json"]
          schema_ref := ((jGet param "schema").bind
              (fun s => jGetStr s "$ref")).map
            (fun r => replaceStr r "#/definitions/" "") }

/-- `OpenApiParser::parse_swagger2_responses`. -/
def parseSwagger2Responses (operation : Json) : List (String × Response) :=
  match jGetFields operation "responses" with
  | none => []
  | some respObj => respObj.foldl (fun acc e =>
      insertAssoc acc e.1
        { status_code := e.1
          description := jGetStr e.2 "description"
          content_types := (strArray operation "produces").getD
            ["application/json"]
          schema_ref := ((jGet e.2 "schema").bind
              (fun s => jGetStr s "$ref")).map
            (fun r => replaceStr r "#/definitions/" "") }) []

/-- `OpenApiParser::parse_swagger2_operation`. -/
def parseSwagger2Operation (path : String) (method : HttpMethod)
    (operation : Json) : Endpoint :=
  { path := path
    method := method
    operation_id := jGetStr operation "operationId"
    summary := jGetStr operation "summary"
    description := jGetStr operation "description"
    tags := (strArray operation "tags").getD []
    parameters := parseSwagger2Parameters operation
    request_body := parseSwagger2Body operation
    responses := parseSwagger2Responses operation
    deprecated := (jGetBool operation "deprecated").getD false
    hash := computeHash operation
    schema_refs := extractRefs operation }

/-- `OpenApiParser::parse_swagger2_paths`. -/
def parseSwagger2Paths (value : Json) : List (String × Endpoint) :=
  match jGetFields value "paths" with
  | none => []
  | some paths => paths.foldl (fun acc e =>
      match asFields e.2 with
      | none => acc
      | some pathObj => pathObj.foldl (fun acc₂ me =>
          match parseHttpMethod me.1 with
          | none => acc₂
          | some m =>
            let endpoint := parseSwagger2Operation e.1 m me.2
            insertAssoc acc₂ endpoint.key endpoint) acc) []

/-- `OpenApiParser::parse_swagger2_definitions`. -/
def parseSwagger2Definitions (value : Json) : List (String × Schema) :=
  match jGetFields value "definitions" with
  | none => []
  | some defs => defs.foldl (fun acc e =>
      insertAssoc acc e.1
        { name := e.1
          schema_type := parseSchemaType e.2
          description := jGetStr e.2 "description"
          refs := extractRefs e.2
          hash := computeHash e.2 }) []

/-- `OpenApiParser::parse_swagger2`. -/
def parseSwagger2 (value : Json) (source : String) : OasResult ParsedSpec :=
  match jGet value "info" with
  | none =>
    .error (.invalidOpenApi ("Missing " ++ squote ++ "info" ++ squote ++ " field"))
  | some info =>
    let title := (jGetStr info "title").getD "Unknown API"
    let version := (jGetStr info "version").getD "0.0.0"
    let description := jGetStr info "description"
    let schemas := parseSwagger2Definitions value
    let endpoints := parseSwagger2Paths value
    let tags := ((endpoints.map (fun e => e.2.tags)).flatten).dedup
    let spec_hash := computeHash value
    .ok
      { metadata :=
          { title := title
            version := version
            description := description
            openapi_version := .swagger2
            endpoint_count := endpoints.length
            schema_count := schemas.length
            tag_count := tags.length }
        endpoints := endpoints
        schemas := schemas
        tags := tags
        spec_hash := spec_hash
        source := source }

/-- `OpenApiParser::parse_openapi3_parameters`: like Swagger 2.0 but with
`cookie` and a `schema`-object ref/type. -/
def parseOpenapi3Parameters (operation : Json) : List Parameter :=
  match jGetArr operation "parameters" with
  | none => []
  | some params => params.filterMap (fun param =>
    let inValue := (jGetStr param "in").getD ""
    match
      (match inValue with
       | "path" => some ParameterLocation.path
       | "query" => some ParameterLocation.query
       | "header" => some ParameterLocation.header
       | "cookie" => some ParameterLocation.cookie
       | _ => none) with
    | none => none
    | some location =>
      some
        { name := (jGetStr param "name").getD ""
          location := location
          required := (jGetBool param "required").getD
            (decide (location = ParameterLocation.path))
          description := jGetStr param "description"
          schema_ref := ((jGet param "schema").bind
              (fun s => jGetStr s "$ref")).map
            (fun r => replaceStr r "#/components/schemas/" "")
          schema_type := (jGet param "schema").bind
            (fun s => jGetStr s "type") })

/-- `OpenApiParser::parse_openapi3_body`: content-type keys and the schema
ref of the first content entry. -/
def parseOpenapi3Body (operation : Json) : Option RequestBody :=
  match jGet operation "requestBody" with
  | none => none
  | some body =>
    match jGetFields body "content" with
    | none => none
    | some content =>
      some
        { required := (jGetBool body "required").getD false
          description := jGetStr body "description"
          content_types := content.map (fun e => e.1)
          schema_ref := ((content.head?.map (fun e => e.2)).bind
              (fun c => (jGet c "schema").bind (fun s => jGetStr s "$ref"))).map
            (fun r => replaceStr r "#/components/schemas/" "") }

/-- `OpenApiParser::parse_openapi3_responses`. -/
def parseOpenapi3Responses (operation : Json) : List (String × Response) :=
  match jGetFields operation "responses" with
  | none => []
  | some respObj => respObj.foldl (fun acc e =>
      let ct : List String × Option String :=
        match jGetFields e.2 "content" with
        | some content =>
          (content.map (fun (c : String × Json) => c.1),
            ((content.head?.map (fun (c : String × Json) => c.2)).bind
                (fun c => (jGet c "schema").bind (fun s => jGetStr s "$ref"))).map
              (fun r => replaceStr r "#/components/schemas/" ""))
        | none => ([], none)
      insertAssoc acc e.1
        { status_code := e.1
          description := jGetStr e.2 "description"
          content_types := ct.1
          schema_ref := ct.2 }) []

/-- `OpenApiParser::parse_openapi3_operation`. -/
def parseOpenapi3Operation (path : String) (method : HttpMethod)
    (operation : Json) : Endpoint :=
  { path := path
    method := method
    operation_id := jGetStr operation "operationId"
    summary := jGetStr operation "summary"
    description := jGetStr operation "description"
    tags := (strArray operation "tags").getD []
    parameters := parseOpenapi3Parameters operation
    request_body := parseOpenapi3Body operation
    responses := parseOpenapi3Responses operation
    deprecated := (jGetBool operation "deprecated").getD false
    hash := computeHash operation
    schema_refs := extractRefs operation }

/-- `OpenApiParser::parse_openapi3_paths`. -/
def parseOpenapi3Paths (value : Json) : List (String × Endpoint) :=
  match jGetFields value "paths" with
  | none => []
  | some paths => paths.foldl (fun acc e =>
      match asFields e.2 with
      | none => acc
      | some pathObj => pathObj.foldl (fun acc₂ me =>
          match parseHttpMethod me.1 with
          | none => acc₂
          | some m =>
            let endpoint := parseOpenapi3Operation e.1 m me.2
            insertAssoc acc₂ endpoint.key endpoint) acc) []

/-- `OpenApiParser::parse_openapi3_schemas`. -/
def parseOpenapi3Schemas (value : Json) : List (String × Schema) :=
  match jGet value "components" with
  | none => []
  | some components =>
    match jGetFields components "schemas" with
    | none => []
    | some schemaObj => schemaObj.foldl (fun acc e =>
        insertAssoc acc e.1
          { name := e.1
            schema_type := parseSchemaType e.2
            description := jGetStr e.2 "description"
            refs := extractRefs e.2
            hash := computeHash e.2 }) []

/-- `OpenApiParser::parse_openapi3`. -/
def parseOpenapi3 (value : Json) (source : String) (version : OpenApiVersion) :
    OasResult ParsedSpec :=
  match jGet value "info" with
  | none =>
    .error (.invalidOpenApi ("Missing " ++ squote ++ "info" ++ squote ++ " field"))
  | some info =>
    let title := (jGetStr info "title").getD "Unknown API"
    let specVersion := (jGetStr info "version").getD "0.0.0"
    let description := jGetStr info "description"
    let schemas := parseOpenapi3Schemas value
    let endpoints := parseOpenapi3Paths value
    let tags := ((endpoints.map (fun e => e.2.tags)).flatten).dedup
    let spec_hash := computeHash value
    .ok
      { metadata :=
          { title := title
            version := specVersion
            description := description
            openapi_version := version
            endpoint_count := endpoints.length
            schema_count := schemas.length
            tag_count := tags.length }
        endpoints := endpoints
        schemas := schemas
        tags := tags
        spec_hash := spec_hash
        source := source }

/-- `OpenApiParser::detect_version`: a `swagger` field starting with `2.`
selects Swagger 2.0, else an `openapi` field starting `3.0`/`3.1` selects the
OpenAPI variant (other values are unsupported), else the document is
invalid. -/
def detectVersion (value : Json) : OasResult OpenApiVersion :=
  let isSwagger2 :=
    match jGetStr value "swagger" with
    | some sw => leadsWith "2.".data sw.data
    | none => false
  if isSwagger2 then .ok .swagger2
  else
    match jGetStr value "openapi" with
    | some openapi =>
      if leadsWith "3.0".data openapi.data then .ok .openApi30
      else if leadsWith "3.1".data openapi.data then .ok .openApi31
      else .error (.unsupportedVersion openapi)
    | none =>
      .error (.invalidOpenApi
        ("Missing " ++ squote ++ "openapi" ++ squote ++ " or " ++ squote ++
          "swagger" ++ squote ++ " field"))

/-- `OpenApiParser::parse_content` from the decoded document value onward:
version detection then the per-version extraction. The text-level JSON/YAML
decoding performed by serde is outside the model; structural processing of
the document starts here. -/
def parseContentValue (value : Json) (source : String) : OasResult ParsedSpec :=
  match detectVersion value with
  | .error e => .error e
  | .ok .swagger2 => parseSwagger2 value source
  | .ok v => parseOpenapi3 value source v

/-! Concrete instances used by witnesses and counterexamples. -/

/-- An empty spec value used as a `getD` fallback in closed statements. -/
def emptySpec : ParsedSpec :=
  ⟨⟨"", "", none, .swagger2, 0, 0, 0⟩, [], [], [], "", ""⟩

/-- A small OpenAPI 3.0 document: one endpoint whose 200 response references
`Order`, and an `Order` schema whose property carries an external (non-local)
`$ref` to another file. -/
def docExternalRef : Json :=
  .obj [("openapi", .str "3.0.0"),
        ("info", .obj [("title", .str "T"), ("version", .str "1")]),
        ("paths", .obj [("/a", .obj [("get", .obj [("responses",
          .obj [("200", .obj [("content", .obj [("application/json",
            .obj [("schema",
              .obj [("$ref", .str "#/components/schemas/Order")])])])])])])])]),
        ("components", .obj [("schemas", .obj [("Order", .obj [("properties",
          .obj [("x", .obj [("$ref",
            .str "./ext.yaml#/components/schemas/Foo")]),
                ("y", .obj [("$ref",
            .str "#/components/schemas/Customer")]),
                ("z", .obj [("$ref",
            .str "#/components/schemas/Customer")])])])])])]

/-- A concrete cache record with the default TTL. -/
def cacheW : OasCache :=
  { version := "1.0.0"
    last_fetch := "2026-01-01T00:00:00+00:00"
    spec_hash := "abcd"
    source := "https://api.example.test/openapi.json"
    ttl_seconds := DEFAULT_TTL_SECONDS
    http_cache := ⟨none, none⟩
    local_cache := ⟨none⟩
    meta := ⟨some "T", some "1", some "3.0", 1, 1⟩ }

/-- A minimal endpoint at `GET /a`. -/
def epA : Endpoint :=
  { path := "/a", method := .get, operation_id := none, summary := none
    description := none, tags := [], parameters := [], request_body := none
    responses := [], deprecated := false, hash := "h1", schema_refs := [] }

/-- A required query parameter `q`. -/
def paramQ : Parameter := ⟨"q", .query, true, none, none, none⟩

/-- The new-side version of `epA` with `q` appended and a fresh hash. -/
def epAq : Endpoint := { epA with parameters := [paramQ], hash := "h2" }

/-- Old side for the required-parameter scenario: one endpoint, no
schemas. -/
def c1old : ParsedSpec :=
  { metadata := ⟨"T", "1", none, .openApi30, 1, 0, 0⟩
    endpoints := [("get:/a", epA)], schemas := [], tags := []
    spec_hash := "s1", source := "old" }

/-- New side for the required-parameter scenario: the same endpoint with
one added required parameter. -/
def c1new : ParsedSpec :=
  { c1old with endpoints := [("get:/a", epAq)], spec_hash := "s2" }

/-- Endpoint referencing schema `S`, identical on both sides. -/
def epE : Endpoint :=
  { epA with path := "/e", hash := "he", schema_refs := ["S"] }

/-- Old side for the schema-impact scenario. -/
def c7old : ParsedSpec :=
  { metadata := ⟨"T", "1", none, .openApi30, 1, 1, 0⟩
    endpoints := [("get:/e", epE)]
    schemas := [("S", ⟨"S", .unknown, none, [], "sa"⟩)], tags := []
    spec_hash := "s1", source := "old" }

/-- New side for the schema-impact scenario: only the schema hash
changed. -/
def c7new : ParsedSpec :=
  { c7old with
    schemas := [("S", ⟨"S", .unknown, none, [], "sb"⟩)]
    spec_hash := "s2" }

/-- A one-endpoint one-schema spec used for the self-diff witness. -/
def specOne : ParsedSpec :=
  { metadata := ⟨"T", "1", none, .openApi30, 1, 1, 0⟩
    endpoints := [("get:/e", epE)]
    schemas := [("S", ⟨"S", .unknown, none, [], "sa"⟩)], tags := []
    spec_hash := "s1", source := "one" }

/-- Second endpoint for the removal scenario. -/
def epB : Endpoint := { epA with path := "/b", hash := "hb" }

/-- Old side for both removal scenarios: two endpoints, one schema. -/
def c3old : ParsedSpec :=
  { metadata := ⟨"T", "1", none, .openApi30, 2, 1, 0⟩
    endpoints := [("get:/a", epA), ("get:/b", epB)]
    schemas := [("S", ⟨"S", .unknown, none, [], "sa"⟩)], tags := []
    spec_hash := "s1", source := "old" }

/-- New side with endpoint `get:/b` removed. -/
def c3newE : ParsedSpec :=
  { c3old with
    endpoints := c3old.endpoints.filter (fun p => p.1 ≠ "get:/b")
    spec_hash := "s2" }

/-- New side with schema `S` removed. -/
def c3newS : ParsedSpec :=
  { c3old with
    schemas := c3old.schemas.filter (fun p => p.1 ≠ "S")
    spec_hash := "s3" }

/-- Schema `B` whose refs contain `A`. -/
def schemaB : Schema := ⟨"B", .unknown, none, ["A"], "hb"⟩

/-- Endpoint using schema `B` directly. -/
def epUsesB : Endpoint :=
  { epA with path := "/useB", hash := "hu", schema_refs := ["B"] }

/-- Spec for the transitivity witness: `A` referenced by `B`, `B` used by
`get:/useB`. -/
def c4spec : ParsedSpec :=
  { metadata := ⟨"T", "1", none, .openApi30, 1, 2, 0⟩
    endpoints := [("get:/useB", epUsesB)]
    schemas := [("B", schemaB), ("A", ⟨"A", .unknown, none, [], "ha"⟩)]
    tags := [], spec_hash := "s1", source := "t" }

/-- A small concrete graph with a cycle between `U` and `V` and one direct
endpoint use of `U`. -/
def gW : DependencyGraph :=
  ⟨[("U", ["get:/u"])], [("get:/u", ["U"])],
    [("U", ["V"]), ("V", ["U"])], [("U", ["V"]), ("V", ["U"])]⟩

/-! Basic facts about the container helpers. -/

theorem mem_insertNew {l : List String} {x y : String} :
    x ∈ insertNew l y ↔ x = y ∨ x ∈ l := by
  unfold insertNew
  split
  · rename_i h
    constructor
    · exact Or.inr
    · rintro (rfl | hx)
      · exact h
      · exact hx
  · simp [List.mem_cons]

theorem nodup_insertNew {l : List String} (h : l.Nodup) (y : String) :
    (insertNew l y).Nodup := by
  unfold insertNew
  split
  · exact h
  · rename_i hy
    exact List.nodup_cons.mpr ⟨hy, h⟩

theorem mem_insertAll {acc xs : List String} {x : String} :
    x ∈ insertAll acc xs ↔ x ∈ acc ∨ x ∈ xs := by
  induction xs generalizing acc with
  | nil => simp [insertAll]
  | cons y ys ih =>
    show x ∈ insertAll (insertNew acc y) ys ↔ _
    rw [ih, mem_insertNew]
    constructor
    · rintro ((rfl | h) | h)
      · exact Or.inr (List.mem_cons_self _ _)
      · exact Or.inl h
      · exact Or.inr (List.mem_cons_of_mem _ h)
    · rintro (h | h)
      · exact Or.inl (Or.inr h)
      · rcases List.mem_cons.mp h with rfl | h
        · exact Or.inl (Or.inl rfl)
        · exact Or.inr h

theorem nodup_insertAll {acc : List String} (h : acc.Nodup) (xs : List String) :
    (insertAll acc xs).Nodup := by
  induction xs generalizing acc with
  | nil => exact h
  | cons y ys ih => exact ih (nodup_insertNew h y)

theorem lookupA_none_of_not_mem {β : Type} {m : List (String × β)} {k : String}
    (h : k ∉ m.map (fun e => e.1)) : lookupA m k = none := by
  induction m with
  | nil => rfl
  | cons e rest ih =>
    obtain ⟨k₂, v⟩ := e
    simp only [List.map_cons, List.mem_cons, not_or] at h
    simp only [lookupA]
    rw [if_neg (fun he => h.1 he.symm)]
    exact ih h.2

theorem lookupA_isSome_of_mem {β : Type} {m : List (String × β)} {k : String}
    (h : k ∈ m.map (fun e => e.1)) : ∃ v, lookupA m k = some v := by
  induction m with
  | nil => simp at h
  | cons e rest ih =>
    obtain ⟨k₂, v⟩ := e
    simp only [lookupA]
    by_cases hk : k₂ = k
    · exact ⟨v, if_pos hk ▸ rfl⟩
    · rw [if_neg hk]
      simp only [List.map_cons, List.mem_cons] at h
      rcases h with rfl | h
      · exact absurd rfl hk
      · exact ih h

theorem mem_of_lookupA {β : Type} {m : List (String × β)} {k : String} {v : β}
    (h : lookupA m k = some v) : (k, v) ∈ m := by
  induction m with
  | nil => exact absurd h (by simp [lookupA])
  | cons e rest ih =>
    obtain ⟨k₂, w⟩ := e
    simp only [lookupA] at h
    split at h
    · rename_i hk
      cases h
      rw [hk]
      exact List.mem_cons_self _ _
    · exact List.mem_cons_of_mem _ (ih h)

theorem key_mem_of_lookupA {β : Type} {m : List (String × β)} {k : String}
    {v : β} (h : lookupA m k = some v) : k ∈ m.map (fun e => e.1) := by
  have := mem_of_lookupA h
  exact List.mem_map.mpr ⟨(k, v), this, rfl⟩

theorem mem_insertAssoc {β : Type} {m : List (String × β)} {k : String}
    {v : β} {e : String × β} (h : e ∈ insertAssoc m k v) :
    e ∈ m ∨ e = (k, v) := by
  unfold insertAssoc at h
  split at h
  · rcases List.mem_map.mp h with ⟨e₂, he₂, heq⟩
    by_cases hk : e₂.1 = k
    · rw [if_pos hk] at heq
      exact Or.inr heq.symm
    · rw [if_neg hk] at heq
      exact Or.inl (heq ▸ he₂)
  · rcases List.mem_append.mp h with h | h
    · exact Or.inl h
    · simp only [List.mem_singleton] at h
      exact Or.inr h

/-- A foldl invariant principle used throughout the development. -/
theorem foldl_invariant {γ α : Type} (Inv : γ → Prop) (f : γ → α → γ)
    (l : List α) (init : γ) (h0 : Inv init)
    (hstep : ∀ g a, a ∈ l → Inv g → Inv (f g a)) : Inv (l.foldl f init) := by
  induction l generalizing init with
  | nil => exact h0
  | cons a rest ih =>
    exact ih (f init a) (hstep init a (List.mem_cons_self _ _) h0)
      (fun g b hb => hstep g b (List.mem_cons_of_mem _ hb))

/-- Reachability through a foldl: once some element establishes the
invariant and every later element preserves it, the fold satisfies it. -/
theorem foldl_reach {γ α : Type} (Inv : γ → Prop) (f : γ → α → γ)
    (l : List α) (a : α) (ha : a ∈ l)
    (hest : ∀ g, Inv (f g a))
    (hstep : ∀ g b, b ∈ l → Inv g → Inv (f g b)) :
    ∀ init, Inv (l.foldl f init) := by
  induction l with
  | nil => simp at ha
  | cons b rest ih =>
    intro init
    rcases List.mem_cons.mp ha with rfl | ha₂
    · exact foldl_invariant Inv f rest (f init a) (hest init)
        (fun g c hc => hstep g c (List.mem_cons_of_mem _ hc))
    · exact ih ha₂ (fun g c hc => hstep g c (List.mem_cons_of_mem _ hc)) _

/-! Order facts about the byte-order comparison. -/

theorem charsLe_total : ∀ a b : List Char,
    charsLe a b = true ∨ charsLe b a = true := by
  intro a
  induction a with
  | nil => intro b; exact Or.inl rfl
  | cons x xs ih =>
    intro b
    cases b with
    | nil => exact Or.inr rfl
    | cons y ys =>
      simp only [charsLe]
      rcases lt_trichotomy x y with h | h | h
      · rw [if_pos h]
        exact Or.inl rfl
      · rw [h]
        simp only [lt_irrefl, if_false]
        exact ih ys
      · rw [if_neg (lt_asymm h), if_pos h, if_pos h]
        exact Or.inr rfl

theorem charsLe_trans : ∀ a b c : List Char,
    charsLe a b = true → charsLe b c = true → charsLe a c = true := by
  intro a
  induction a with
  | nil => intro b c _ _; rfl
  | cons x xs ih =>
    intro b c hab hbc
    cases b with
    | nil => exact absurd hab (by simp [charsLe])
    | cons y ys =>
      cases c with
      | nil => exact absurd hbc (by simp [charsLe])
      | cons z zs =>
        simp only [charsLe] at hab hbc ⊢
        by_cases hxy : x < y
        · by_cases hyz : y < z
          · rw [if_pos (lt_trans hxy hyz)]
          · by_cases hzy : z < y
            · rw [if_neg hyz, if_pos hzy] at hbc
              exact absurd hbc (by simp)
            · have h₂ : y = z := le_antisymm (not_lt.mp hzy) (not_lt.mp hyz)
              subst h₂
              rw [if_pos hxy]
        · by_cases hyx : y < x
          · rw [if_neg hxy, if_pos hyx] at hab
            exact absurd hab (by simp)
          · have h₂ : x = y := le_antisymm (not_lt.mp hyx) (not_lt.mp hxy)
            subst h₂
            rw [if_neg hxy, if_neg hyx] at hab
            by_cases hxz : x < z
            · rw [if_pos hxz]
            · by_cases hzx : z < x
              · rw [if_neg hxz, if_pos hzx] at hbc
                exact absurd hbc (by simp)
              · rw [if_neg hxz, if_neg hzx] at hbc ⊢
                exact ih ys zs hab hbc

theorem charsLe_antisymm : ∀ a b : List Char,
    charsLe a b = true → charsLe b a = true → a = b := by
  intro a
  induction a with
  | nil =>
    intro b _ hba
    cases b with
    | nil => rfl
    | cons y ys => exact absurd hba (by simp [charsLe])
  | cons x xs ih =>
    intro b hab hba
    cases b with
    | nil => exact absurd hab (by simp [charsLe])
    | cons y ys =>
      simp only [charsLe] at hab hba
      by_cases hxy : x < y
      · rw [if_neg (lt_asymm hxy), if_pos hxy] at hba
        exact absurd hba (by simp)
      · by_cases hyx : y < x
        · rw [if_neg hxy, if_pos hyx] at hab
          exact absurd hab (by simp)
        · have : x = y := le_antisymm (not_lt.mp hyx) (not_lt.mp hxy)
          subst this
          rw [if_neg hxy, if_neg hxy] at hab hba
          rw [ih ys hab hba]

instance : IsTotal String strleP :=
  ⟨fun a b => charsLe_total a.data b.data⟩

instance : IsTrans String strleP :=
  ⟨fun a b c => charsLe_trans a.data b.data c.data⟩

theorem strleP_antisymm {a b : String} (hab : strleP a b) (hba : strleP b a) :
    a = b :=
  String.ext (charsLe_antisymm a.data b.data hab hba)

/-- The strict version of the sort order, as left by `dedup` on a sorted
vector. -/
def strltP (a b : String) : Prop := strleP a b ∧ a ≠ b

instance : IsTrans String strltP :=
  ⟨fun a b c hab hbc => by
    refine ⟨charsLe_trans a.data b.data c.data hab.1 hbc.1, fun hac => ?_⟩
    subst hac
    exact hab.2 (strleP_antisymm hab.1 hbc.1)⟩

/-! Sortedness of `extract_refs`. -/

theorem dedupAdjacent_cons (x : String) (xs : List String) :
    ∃ t, dedupAdjacent (x :: xs) = x :: t := by
  induction xs generalizing x with
  | nil => exact ⟨[], rfl⟩
  | cons y ys ih =>
    simp only [dedupAdjacent]
    split
    · rename_i hxy
      rcases ih y with ⟨t, ht⟩
      exact ⟨t, by rw [ht, hxy]⟩
    · exact ⟨dedupAdjacent (y :: ys), rfl⟩

theorem chain_strlt_dedupAdjacent : ∀ l : List String,
    List.Chain' strleP l → List.Chain' strltP (dedupAdjacent l) := by
  intro l
  induction l using dedupAdjacent.induct with
  | case1 => intro _; exact List.chain'_nil
  | case2 a => intro _; exact List.chain'_singleton a
  | case3 b rest ih =>
    intro hc
    simp only [dedupAdjacent, if_pos rfl]
    exact ih (List.Chain'.tail hc)
  | case4 a b rest hne ih =>
    intro hc
    simp only [dedupAdjacent, if_neg hne]
    rcases dedupAdjacent_cons b rest with ⟨t, ht⟩
    rw [ht]
    have hble := List.chain'_cons.mp hc
    refine List.chain'_cons.mpr ⟨⟨hble.1, hne⟩, ?_⟩
    have := ih hble.2
    rw [ht] at this
    exact this

theorem sorted_nodup_extractRefs (value : Json) :
    List.Sorted strleP (extractRefs value) ∧ (extractRefs value).Nodup := by
  have hsorted : List.Sorted strleP (List.insertionSort strleP (collectRefs value)) :=
    List.sorted_insertionSort strleP (collectRefs value)
  have hchain : List.Chain' strleP (List.insertionSort strleP (collectRefs value)) :=
    List.chain'_iff_pairwise.mpr hsorted
  have hstrict : List.Chain' strltP (extractRefs value) :=
    chain_strlt_dedupAdjacent _ hchain
  have hpair : List.Pairwise strltP (extractRefs value) :=
    List.chain'_iff_pairwise.mp hstrict
  constructor
  · exact hpair.imp (fun h => h.1)
  · exact List.Pairwise.imp (fun h => h.2) hpair

/-! Provenance of every `refs` and `schema_refs` list built by the parser. -/

theorem swagger2_definitions_refs (value : Json) :
    ∀ e ∈ parseSwagger2Definitions value,
      List.Sorted strleP e.2.refs ∧ e.2.refs.Nodup := by
  unfold parseSwagger2Definitions
  split
  · simp
  · rename_i defs _
    refine foldl_invariant
      (fun (acc : List (String × Schema)) => ∀ e ∈ acc,
        List.Sorted strleP e.2.refs ∧ e.2.refs.Nodup)
      _ _ _ (by simp) ?_
    intro g a _ hInv e he
    rcases mem_insertAssoc he with h | rfl
    · exact hInv e h
    · exact sorted_nodup_extractRefs a.2

theorem openapi3_schemas_refs (value : Json) :
    ∀ e ∈ parseOpenapi3Schemas value,
      List.Sorted strleP e.2.refs ∧ e.2.refs.Nodup := by
  unfold parseOpenapi3Schemas
  split
  · simp
  · split
    · simp
    · rename_i _ _ schemaObj _
      refine foldl_invariant
        (fun (acc : List (String × Schema)) => ∀ e ∈ acc,
          List.Sorted strleP e.2.refs ∧ e.2.refs.Nodup)
        _ _ _ (by simp) ?_
      intro g a _ hInv e he
      rcases mem_insertAssoc he with h | rfl
      · exact hInv e h
      · exact sorted_nodup_extractRefs a.2

theorem swagger2_paths_refs (value : Json) :
    ∀ e ∈ parseSwagger2Paths value,
      List.Sorted strleP e.2.schema_refs ∧ e.2.schema_refs.Nodup := by
  unfold parseSwagger2Paths
  split
  · simp
  · rename_i paths _
    refine foldl_invariant
      (fun (acc : List (String × Endpoint)) => ∀ e ∈ acc,
        List.Sorted strleP e.2.schema_refs ∧ e.2.schema_refs.Nodup)
      _ _ _ (by simp) ?_
    intro g a _ hInv
    cases hpf : asFields a.2 with
    | none => simpa [hpf] using hInv
    | some pathObj =>
      simp only [hpf]
      refine foldl_invariant
        (fun (acc : List (String × Endpoint)) => ∀ e ∈ acc,
          List.Sorted strleP e.2.schema_refs ∧ e.2.schema_refs.Nodup)
        _ _ _ hInv ?_
      intro g₂ me _ hInv₂
      cases hm : parseHttpMethod me.1 with
      | none => simpa [hm] using hInv₂
      | some m =>
        simp only [hm]
        intro e he
        rcases mem_insertAssoc he with h | rfl
        · exact hInv₂ e h
        · exact sorted_nodup_extractRefs me.2

theorem openapi3_paths_refs (value : Json) :
    ∀ e ∈ parseOpenapi3Paths value,
      List.Sorted strleP e.2.schema_refs ∧ e.2.schema_refs.Nodup := by
  unfold parseOpenapi3Paths
  split
  · simp
  · rename_i paths _
    refine foldl_invariant
      (fun (acc : List (String × Endpoint)) => ∀ e ∈ acc,
        List.Sorted strleP e.2.schema_refs ∧ e.2.schema_refs.Nodup)
      _ _ _ (by simp) ?_
    intro g a _ hInv
    cases hpf : asFields a.2 with
    | none => simpa [hpf] using hInv
    | some pathObj =>
      simp only [hpf]
      refine foldl_invariant
        (fun (acc : List (String × Endpoint)) => ∀ e ∈ acc,
          List.Sorted strleP e.2.schema_refs ∧ e.2.schema_refs.Nodup)
        _ _ _ hInv ?_
      intro g₂ me _ hInv₂
      cases hm : parseHttpMethod me.1 with
      | none => simpa [hm] using hInv₂
      | some m =>
        simp only [hm]
        intro e he
        rcases mem_insertAssoc he with h | rfl
        · exact hInv₂ e h
        · exact sorted_nodup_extractRefs me.2

/-- C10: every schema `refs` list and endpoint `schema_refs` list produced by
the parser is sorted ascending (in the byte order used by `Vec::sort`) and
free of duplicates, because `extract_refs` sorts and deduplicates every
collected reference list. -/
theorem c10_parsed_ref_lists_sorted_nodup :
    ∀ (value : Json) (source : String) (spec : ParsedSpec),
      parseContentValue value source = .ok spec →
      (∀ e ∈ spec.schemas, List.Sorted strleP e.2.refs ∧ e.2.refs.Nodup) ∧
      (∀ e ∈ spec.endpoints,
        List.Sorted strleP e.2.schema_refs ∧ e.2.schema_refs.Nodup) := by
  intro value source spec hok
  unfold parseContentValue at hok
  cases hv : detectVersion value with
  | error e => rw [hv] at hok; exact absurd hok (by simp)
  | ok ver =>
    rw [hv] at hok
    have hcore : ∀ (w : OasResult ParsedSpec),
        (w = parseSwagger2 value source ∨
          ∃ vtag, w = parseOpenapi3 value source vtag) →
        w = .ok spec →
        (∀ e ∈ spec.schemas,
          List.Sorted strleP e.2.refs ∧ e.2.refs.Nodup) ∧
        (∀ e ∈ spec.endpoints,
          List.Sorted strleP e.2.schema_refs ∧ e.2.schema_refs.Nodup) := by
      rintro w (hw | ⟨vtag, hw⟩) hws
      · unfold parseSwagger2 at hw
        split at hw
        · rw [hw] at hws
          exact absurd hws (by simp)
        · rw [hw] at hws
          injection hws with hspec
          constructor
          · intro e he
            rw [← hspec] at he
            exact swagger2_definitions_refs value e he
          · intro e he
            rw [← hspec] at he
            exact swagger2_paths_refs value e he
      · unfold parseOpenapi3 at hw
        split at hw
        · rw [hw] at hws
          exact absurd hws (by simp)
        · rw [hw] at hws
          injection hws with hspec
          constructor
          · intro e he
            rw [← hspec] at he
            exact openapi3_schemas_refs value e he
          · intro e he
            rw [← hspec] at he
            exact openapi3_paths_refs value e he
    cases ver with
    | swagger2 => exact hcore _ (Or.inl rfl) hok
    | openApi30 => exact hcore _ (Or.inr ⟨_, rfl⟩) hok
    | openApi31 => exact hcore _ (Or.inr ⟨_, rfl⟩) hok

/-- Witness for C10 at the concrete document `docExternalRef`: the parse
succeeds and the theorem applies, giving sortedness and dedup of the one
schema refs list and the one endpoint refs list. -/
theorem c10_witness :
    (∀ e ∈ ((parseContentValue docExternalRef "w").toOption.getD
        emptySpec).schemas,
      List.Sorted strleP e.2.refs ∧ e.2.refs.Nodup) ∧
    (∀ e ∈ ((parseContentValue docExternalRef "w").toOption.getD
        emptySpec).endpoints,
      List.Sorted strleP e.2.schema_refs ∧ e.2.schema_refs.Nodup) :=
  c10_parsed_ref_lists_sorted_nodup docExternalRef "w"
    ((parseContentValue docExternalRef "w").toOption.getD emptySpec) rfl

/-! The cache TTL boundary. -/

/-- C8: with a parsable `last_fetch` timestamp, elapsed time of exactly
`ttl_seconds` is not expired, one second beyond is expired; an unparsable
timestamp is always reported expired. -/
theorem c8_cache_ttl_boundary :
    ∀ (parseTs : String → Option Int) (now : Int) (cache : OasCache),
      (∀ t, parseTs cache.last_fetch = some t →
        (now - t = (cache.ttl_seconds : Int) →
          is_cache_expired parseTs now cache = false) ∧
        (now - t ≥ (cache.ttl_seconds : Int) + 1 →
          is_cache_expired parseTs now cache = true)) ∧
      (parseTs cache.last_fetch = none →
        is_cache_expired parseTs now cache = true) := by
  intro parseTs now cache
  constructor
  · intro t ht
    unfold is_cache_expired
    rw [ht]
    constructor
    · intro heq
      rw [decide_eq_false_iff_not]
      omega
    · intro hge
      rw [decide_eq_true_eq]
      omega
  · intro hn
    unfold is_cache_expired
    rw [hn]

/-- Witness for C8 on a concrete record with the default 86400-second TTL:
elapsed 86400 is fresh, elapsed 86401 is expired, and an unparsable
timestamp is expired. -/
theorem c8_witness :
    is_cache_expired (fun _ => some 0) 86400 cacheW = false ∧
    is_cache_expired (fun _ => some 0) 86401 cacheW = true ∧
    is_cache_expired (fun _ => none) 5 cacheW = true :=
  ⟨((c8_cache_ttl_boundary (fun _ => some 0) 86400 cacheW).1 0 rfl).1
      (by decide),
   ((c8_cache_ttl_boundary (fun _ => some 0) 86401 cacheW).1 0 rfl).2
      (by decide),
   (c8_cache_ttl_boundary (fun _ => none) 5 cacheW).2 rfl⟩

/-! Unresolved and external references at parse time. -/

/-- C9 counterexample: a document carrying an external, unresolvable `$ref`
parses successfully; the external ref is not rejected but recorded with the
local heads stripped, leaving the foreign file segment mangled into the
name. The claim that parsing returns an unresolved-reference error is false
at this input. -/
theorem c9_counterexample :
    (parseContentValue docExternalRef "w").toOption.map
        (fun sp => sp.schemas.map (fun p => (p.1, p.2.refs)))
      = some [("Order", ["./ext.yamlFoo", "Customer"])] := by decide

/-- C9 amended: structural parsing never produces the unresolved-reference
error kind (or any error other than invalid-document and unsupported-version);
`extract_refs` strips the local ref heads from whatever `$ref` strings occur
and records the remainder, so unresolved and external refs are silently
accepted, and `UnresolvedRef` is declared in the taxonomy but never
raised. -/
theorem c9_no_unresolved_ref_error :
    ∀ (value : Json) (source : String) (e : OasError),
      parseContentValue value source = .error e →
      (∃ msg, e = OasError.invalidOpenApi msg) ∨
      (∃ v, e = OasError.unsupportedVersion v) := by
  intro value source e h
  unfold parseContentValue at h
  have hdet : ∀ e₂ : OasError, detectVersion value = .error e₂ →
      (∃ msg, e₂ = OasError.invalidOpenApi msg) ∨
      (∃ v, e₂ = OasError.unsupportedVersion v) := by
    intro e₂
    simp only [detectVersion]
    split
    · intro hcon
      exact absurd hcon (by simp)
    · split
      · split
        · intro hcon
          exact absurd hcon (by simp)
        · split
          · intro hcon
            exact absurd hcon (by simp)
          · intro hcon
            injection hcon with he₂
            exact Or.inr ⟨_, he₂.symm⟩
      · intro hcon
        injection hcon with he₂
        exact Or.inl ⟨_, he₂.symm⟩
  cases hv : detectVersion value with
  | error e₂ =>
    rw [hv] at h
    injection h with he
    subst he
    exact hdet _ hv
  | ok ver =>
    rw [hv] at h
    have hsw : ∀ src, parseSwagger2 value src = .error e →
        ∃ msg, e = OasError.invalidOpenApi msg := by
      intro src hp
      unfold parseSwagger2 at hp
      split at hp
      · injection hp with he
        exact ⟨_, he.symm⟩
      · exact absurd hp (by simp)
    have hoa : ∀ src vtag, parseOpenapi3 value src vtag = .error e →
        ∃ msg, e = OasError.invalidOpenApi msg := by
      intro src vtag hp
      unfold parseOpenapi3 at hp
      split at hp
      · injection hp with he
        exact ⟨_, he.symm⟩
      · exact absurd hp (by simp)
    cases ver with
    | swagger2 => exact Or.inl (hsw source h)
    | openApi30 => exact Or.inl (hoa source _ h)
    | openApi31 => exact Or.inl (hoa source _ h)

/-- Witness for the amended C9 at a concrete failing document (an empty
OpenAPI 3.0 document without `info`): the error produced is an
invalid-document error, not an unresolved-reference error. -/
theorem c9_witness :
    (∃ msg, OasError.invalidOpenApi
        ("Missing " ++ squote ++ "info" ++ squote ++ " field")
      = OasError.invalidOpenApi msg) ∨
    (∃ v, OasError.invalidOpenApi
        ("Missing " ++ squote ++ "info" ++ squote ++ " field")
      = OasError.unsupportedVersion v) :=
  c9_no_unresolved_ref_error (.obj [("openapi", .str "3.0.0")]) "w"
    (OasError.invalidOpenApi
      ("Missing " ++ squote ++ "info" ++ squote ++ " field"))
    rfl

/-! Facts about the diff engine. -/

theorem insertAssoc_append {β : Type} {m : List (String × β)} {k : String}
    (v : β) (h : k ∉ m.map (fun e => e.1)) :
    insertAssoc m k v = m ++ [(k, v)] := by
  unfold insertAssoc
  rw [if_neg]
  intro hany
  rcases List.any_eq_true.mp hany with ⟨e, he, hek⟩
  exact h (List.mem_map.mpr ⟨e, he, by simpa using hek⟩)

theorem paramsMap_eq_aux (ps : List Parameter) :
    ∀ (m : List (String × Parameter)),
      (ps.map (fun p => p.name)).Nodup →
      (∀ p ∈ ps, p.name ∉ m.map (fun e => e.1)) →
      ps.foldl (fun m₂ p => insertAssoc m₂ p.name p) m
        = m ++ ps.map (fun p => (p.name, p)) := by
  induction ps with
  | nil => intro m _ _; simp
  | cons p rest ih =>
    intro m hnd hfresh
    have h₁ : insertAssoc m p.name p = m ++ [(p.name, p)] :=
      insertAssoc_append p (hfresh p (List.mem_cons_self _ _))
    show List.foldl _ (insertAssoc m p.name p) rest = _
    rw [h₁, ih (m ++ [(p.name, p)]) (List.nodup_cons.mp (by simpa using hnd)).2]
    · simp
    · intro q hq
      simp only [List.map_append, List.map_cons, List.map_nil, List.mem_append,
        List.mem_singleton, not_or]
      refine ⟨fun hqm => hfresh q (List.mem_cons_of_mem _ hq) hqm, fun hqp => ?_⟩
      have := (List.nodup_cons.mp (by simpa using hnd : (p.name ::
        rest.map (fun p => p.name)).Nodup)).1
      exact this (hqp ▸ List.mem_map.mpr ⟨q, hq, rfl⟩)

theorem paramsMap_eq (ps : List Parameter)
    (h : (ps.map (fun p => p.name)).Nodup) :
    paramsMap ps = ps.map (fun p => (p.name, p)) := by
  unfold paramsMap
  rw [paramsMap_eq_aux ps [] h (by simp)]
  simp

theorem lookupA_pairs_some {ps : List Parameter} {q : Parameter}
    (hq : q ∈ ps) :
    ∃ w, lookupA (ps.map (fun p => (p.name, p))) q.name = some w := by
  apply lookupA_isSome_of_mem
  simp only [List.map_map]
  exact List.mem_map.mpr ⟨q, hq, rfl⟩

/-- The exact change list computed by `compare_endpoints` when the only
difference is one appended parameter (and a changed hash). -/
theorem compare_endpoints_added_param (e_old e_new : Endpoint) (p : Parameter)
    (hh : e_old.hash ≠ e_new.hash)
    (hp : e_new.parameters = e_old.parameters ++ [p])
    (hnd : ((e_old.parameters ++ [p]).map (fun q => q.name)).Nodup)
    (hb : e_new.request_body = e_old.request_body)
    (hr : e_new.responses = e_old.responses) :
    DiffEngine.compare_endpoints e_old e_new
      = if p.required then ["Added required parameter: " ++ p.name]
        else ["Endpoint definition changed"] := by
  have hnd_old : (e_old.parameters.map (fun q => q.name)).Nodup := by
    rw [List.map_append] at hnd
    exact (List.nodup_append.mp hnd).1
  have hfresh : p.name ∉ e_old.parameters.map (fun q => q.name) := by
    rw [List.map_append] at hnd
    intro hmem
    exact (List.nodup_append.mp hnd).2.2 hmem (by simp)
  have hOld : paramsMap e_old.parameters
      = e_old.parameters.map (fun q => (q.name, q)) := paramsMap_eq _ hnd_old
  have hNew : paramsMap e_new.parameters
      = e_old.parameters.map (fun q => (q.name, q)) ++ [(p.name, p)] := by
    rw [hp, paramsMap_eq _ hnd, List.map_append]
    simp
  unfold DiffEngine.compare_endpoints
  rw [if_neg hh, hOld, hNew, hb, hr]
  have haddOld : List.filterMap (fun e =>
      if (lookupA (e_old.parameters.map (fun q => (q.name, q))) e.1).isNone
          && e.2.required then
        some ("Added required parameter: " ++ e.1)
      else none) (e_old.parameters.map (fun q => (q.name, q))) = [] := by
    rw [List.filterMap_eq_nil]
    intro a ha
    rcases List.mem_map.mp ha with ⟨q, hq, rfl⟩
    rcases lookupA_pairs_some hq with ⟨w, hw⟩
    simp [hw]
  have hlookNone : lookupA (e_old.parameters.map (fun q => (q.name, q))) p.name
      = none := by
    apply lookupA_none_of_not_mem
    simpa [List.map_map] using hfresh
  have hrem : List.filterMap (fun e =>
      if (lookupA (e_old.parameters.map (fun q => (q.name, q)) ++ [(p.name, p)])
          e.1).isNone then
        some ("Removed parameter: " ++ e.1)
      else none) (e_old.parameters.map (fun q => (q.name, q))) = [] := by
    rw [List.filterMap_eq_nil]
    intro a ha
    rcases List.mem_map.mp ha with ⟨q, hq, rfl⟩
    have : ∃ w, lookupA (e_old.parameters.map (fun q => (q.name, q))
        ++ [(p.name, p)]) q.name = some w := by
      apply lookupA_isSome_of_mem
      simp only [List.map_append, List.map_map, List.mem_append]
      exact Or.inl (List.mem_map.mpr ⟨q, hq, rfl⟩)
    rcases this with ⟨w, hw⟩
    simp [hw]
  have hbody : (match e_old.request_body, e_old.request_body with
      | none, some _ => ["Added request body"]
      | some _, none => ["Removed request body"]
      | some ob, some nb =>
        if ob.schema_ref ≠ nb.schema_ref then ["Request body schema changed"]
        else []
      | none, none => ([] : List String)) = [] := by
    cases e_old.request_body with
    | none => rfl
    | some b => simp
  have hrespAdd : ((e_old.responses.map (fun e => e.1)).dedup.filter
      (fun st => st ∉ (e_old.responses.map (fun e => e.1)).dedup)).map
        (fun st => "Added response: " ++ st) = [] := by
    rw [List.filter_eq_nil.mpr]
    · rfl
    · intro a ha
      simp [ha]
  have hrespRem : ((e_old.responses.map (fun e => e.1)).dedup.filter
      (fun st => st ∉ (e_old.responses.map (fun e => e.1)).dedup)).map
        (fun st => "Removed response: " ++ st) = [] := by
    rw [List.filter_eq_nil.mpr]
    · rfl
    · intro a ha
      simp [ha]
  have hsingle : List.filterMap (fun e =>
      if (lookupA (e_old.parameters.map (fun q => (q.name, q))) e.1).isNone
          && e.2.required then
        some ("Added required parameter: " ++ e.1)
      else none) [(p.name, p)]
      = if p.required then ["Added required parameter: " ++ p.name]
        else [] := by
    cases hreq : p.required with
    | true => simp [List.filterMap, hlookNone, hreq]
    | false => simp [List.filterMap, hlookNone, hreq]
  simp only [List.filterMap_append, haddOld, hsingle, hrem, hbody, hrespAdd,
    hrespRem, List.nil_append, List.append_nil]
  cases hreq : p.required with
  | true => simp
  | false => simp

/-- `compare_schemas` on two specs with literally the same schema list:
every name is classified unchanged. -/
theorem compare_schemas_of_eq (old new : ParsedSpec)
    (hs : new.schemas = old.schemas) :
    DiffEngine.compare_schemas old new
      = ((old.schemas.map (fun e => e.1)).dedup).map
          (fun n => (n, ChangeType.unchanged)) := by
  unfold DiffEngine.compare_schemas
  rw [hs]
  have h₁ : ((old.schemas.map (fun e => e.1)).dedup.filter
      (fun n => n ∉ (old.schemas.map (fun e => e.1)).dedup)).map
        (fun n => (n, ChangeType.added)) = [] := by
    rw [List.filter_eq_nil.mpr]
    · rfl
    · intro a ha
      simp [ha]
  have h₂ : ((old.schemas.map (fun e => e.1)).dedup.filter
      (fun n => n ∉ (old.schemas.map (fun e => e.1)).dedup)).map
        (fun n => (n, ChangeType.removed)) = [] := by
    rw [List.filter_eq_nil.mpr]
    · rfl
    · intro a ha
      simp [ha]
  have h₃ : (old.schemas.map (fun e => e.1)).dedup.filter
      (fun n => n ∈ (old.schemas.map (fun e => e.1)).dedup)
      = (old.schemas.map (fun e => e.1)).dedup := by
    rw [List.filter_eq_self.mpr]
    intro a ha
    simp [ha]
  simp only [h₁, h₂, h₃, List.nil_append]
  apply List.map_congr_left
  intro n _
  rw [if_neg (fun hne => hne rfl)]

theorem isModifiedIn_unchanged_map (names : List String) (s : String) :
    isModifiedIn (names.map (fun n => (n, ChangeType.unchanged))) s = false := by
  induction names with
  | nil => rfl
  | cons n rest ih =>
    unfold isModifiedIn lookupA
    simp only [List.map_cons]
    show (match (if n = s then some ChangeType.unchanged
      else lookupA (rest.map (fun n => (n, ChangeType.unchanged))) s) with
      | some (ChangeType.modified _) => true
      | _ => false) = false
    by_cases hn : n = s
    · rw [if_pos hn]
    · rw [if_neg hn]
      exact ih

/-- C2: the self-diff is the identity: no additions, removals or
modifications on either side, no breaking changes, and the unchanged
counters equal the endpoint and schema counts. -/
theorem c2_self_diff_identity :
    ∀ (s : ParsedSpec) (g : Option DependencyGraph),
      (s.endpoints.map (fun e => e.1)).Nodup →
      (s.schemas.map (fun e => e.1)).Nodup →
      (DiffEngine.diff s s g).added_endpoints = [] ∧
      (DiffEngine.diff s s g).modified_endpoints = [] ∧
      (DiffEngine.diff s s g).removed_endpoints = [] ∧
      (DiffEngine.diff s s g).added_schemas = [] ∧
      (DiffEngine.diff s s g).modified_schemas = [] ∧
      (DiffEngine.diff s s g).removed_schemas = [] ∧
      (DiffEngine.diff s s g).breaking_changes = [] ∧
      (DiffEngine.diff s s g).unchanged_endpoints = s.endpoints.length ∧
      (DiffEngine.diff s s g).unchanged_schemas = s.schemas.length := by
  intro s g hne hns
  have hsc := compare_schemas_of_eq s s rfl
  have hdedupE : (s.endpoints.map (fun e => e.1)).dedup
      = s.endpoints.map (fun e => e.1) := List.dedup_eq_self.mpr hne
  have hdedupS : (s.schemas.map (fun e => e.1)).dedup
      = s.schemas.map (fun e => e.1) := List.dedup_eq_self.mpr hns
  have hfilterSelf : (s.endpoints.map (fun e => e.1)).filter
      (fun k => k ∉ s.endpoints.map (fun e => e.1)) = [] := by
    rw [List.filter_eq_nil.mpr]
    intro a ha
    simp [ha]
  have hfilterMem : (s.endpoints.map (fun e => e.1)).filter
      (fun k => k ∈ s.endpoints.map (fun e => e.1))
      = s.endpoints.map (fun e => e.1) := by
    rw [List.filter_eq_self.mpr]
    intro a ha
    simp [ha]
  have hinterNone : ∀ k ∈ s.endpoints.map (fun e => e.1),
      (let old_e := getEndpointD s.endpoints k
       let new_e := getEndpointD s.endpoints k
       let direct := DiffEngine.compare_endpoints old_e new_e
       let affected := new_e.schema_refs.filter (fun r =>
         isModifiedIn ((s.schemas.map (fun e => e.1)).map
           (fun n => (n, ChangeType.unchanged))) r)
       if direct.isEmpty && affected.isEmpty then none
       else
         some (⟨k, new_e.path, new_e.method, new_e.operation_id, new_e.tags,
           direct ++ affected.map (fun r => "Affected by schema change: " ++ r),
           affected⟩ : EndpointChange)) = none := by
    intro k _
    have hdirect : DiffEngine.compare_endpoints (getEndpointD s.endpoints k)
        (getEndpointD s.endpoints k) = [] := by
      unfold DiffEngine.compare_endpoints
      rw [if_pos rfl]
    have haff : (getEndpointD s.endpoints k).schema_refs.filter (fun r =>
        isModifiedIn ((s.schemas.map (fun e => e.1)).map
          (fun n => (n, ChangeType.unchanged))) r) = [] := by
      rw [List.filter_eq_nil.mpr]
      intro a _
      rw [isModifiedIn_unchanged_map]
      simp
    simp only [hdirect, haff]
    rfl
  unfold DiffEngine.diff
  rw [hsc]
  simp only [hdedupE, hdedupS, hfilterSelf, hfilterMem]
  refine ⟨?_, ?_, ?_, ?_, ?_, ?_, ?_, ?_, ?_⟩
  · rfl
  · rw [List.filterMap_eq_nil.mpr]
    intro a ha
    rcases List.mem_map.mp ha with ⟨k, hk, rfl⟩
    exact hinterNone k hk
  · rfl
  · rw [List.filterMap_eq_nil.mpr]
    intro a ha
    rcases List.mem_map.mp ha with ⟨n, _, rfl⟩
    rfl
  · rw [List.filterMap_eq_nil.mpr]
    intro a ha
    rcases List.mem_map.mp ha with ⟨n, _, rfl⟩
    rfl
  · rw [List.filterMap_eq_nil.mpr]
    intro a ha
    rcases List.mem_map.mp ha with ⟨n, _, rfl⟩
    rfl
  · rw [List.append_eq_nil]
    constructor
    · rw [List.filterMap_eq_nil.mpr]
      intro a ha
      rcases List.mem_map.mp ha with ⟨n, _, rfl⟩
      rfl
    · rfl
  · rw [List.countP_eq_length.mpr (by
      intro a ha
      rcases List.mem_map.mp ha with ⟨k, hk, rfl⟩
      exact Option.isNone_iff_eq_none.mpr (hinterNone k hk))]
    simp only [List.length_map]
  · rw [List.countP_map]
    rw [List.countP_eq_length.mpr (by intro a _; rfl)]
    simp only [List.length_map]

/-! Removal detection. -/

theorem map_fst_filter_ne {β : Type} (l : List (String × β)) (k : String) :
    (l.filter (fun p => p.1 ≠ k)).map (fun p => p.1)
      = (l.map (fun p => p.1)).filter (fun x => x ≠ k) := by
  rw [List.filter_map]
  rfl

theorem filter_eq_singleton_of_nodup {l : List String} {k : String}
    (hnd : l.Nodup) (hk : k ∈ l) : l.filter (fun x => x = k) = [k] := by
  induction l with
  | nil => simp at hk
  | cons a rest ih =>
    rcases List.mem_cons.mp hk with rfl | hk₂
    · rw [List.filter_cons, if_pos (by simp)]
      rw [List.filter_eq_nil.mpr]
      intro x hx
      have := (List.nodup_cons.mp hnd).1
      simp only [decide_eq_true_eq]
      intro hxa
      exact this (hxa ▸ hx)
    · have hne : a ≠ k := by
        intro h
        exact (List.nodup_cons.mp hnd).1 (h ▸ hk₂)
      rw [List.filter_cons, if_neg (by simpa using hne)]
      exact ih (List.nodup_cons.mp hnd).2 hk₂

theorem lookupA_filter_ne {β : Type} (l : List (String × β)) (k m : String)
    (hm : m ≠ k) : lookupA (l.filter (fun p => p.1 ≠ k)) m = lookupA l m := by
  induction l with
  | nil => rfl
  | cons e rest ih =>
    obtain ⟨k₂, v⟩ := e
    by_cases hk₂ : k₂ = k
    · subst hk₂
      rw [List.filter_cons, if_neg (by simp)]
      have hstep : lookupA ((k₂, v) :: rest) m = lookupA rest m := by
        show (if k₂ = m then some v else lookupA rest m) = lookupA rest m
        rw [if_neg (fun h => hm h.symm)]
      rw [hstep]
      exact ih
    · rw [List.filter_cons, if_pos (by simpa using hk₂)]
      show lookupA ((k₂, v) :: rest.filter (fun p => p.1 ≠ k)) m = _
      unfold lookupA
      by_cases hk₃ : k₂ = m
      · rw [if_pos hk₃, if_pos hk₃]
      · rw [if_neg hk₃, if_neg hk₃]
        exact ih

/-- `compare_schemas` when the new spec is the old one minus schema `n`. -/
theorem compare_schemas_removed (old new : ParsedSpec) (n : String)
    (hn : n ∈ old.schemas.map (fun p => p.1))
    (hs : new.schemas = old.schemas.filter (fun p => p.1 ≠ n))
    (hnd : (old.schemas.map (fun p => p.1)).Nodup) :
    DiffEngine.compare_schemas old new
      = (n, ChangeType.removed) ::
          ((old.schemas.map (fun p => p.1)).filter (fun m => m ≠ n)).map
            (fun m => (m, ChangeType.unchanged)) := by
  unfold DiffEngine.compare_schemas
  rw [hs, map_fst_filter_ne]
  rw [List.dedup_eq_self.mpr hnd, List.dedup_eq_self.mpr (hnd.filter _)]
  have h₁ : ((old.schemas.map (fun p => p.1)).filter (fun x => x ≠ n)).filter
      (fun m => m ∉ old.schemas.map (fun p => p.1)) = [] := by
    rw [List.filter_eq_nil.mpr]
    intro a ha
    simp [List.mem_of_mem_filter ha]
  have h₂ : (old.schemas.map (fun p => p.1)).filter
      (fun m => m ∉ (old.schemas.map (fun p => p.1)).filter (fun x => x ≠ n))
      = [n] := by
    rw [List.filter_congr (q := fun x => x = n), filter_eq_singleton_of_nodup hnd hn]
    intro x hx
    simp only [List.mem_filter, decide_eq_true_eq, decide_eq_decide]
    constructor
    · intro hnot
      by_contra hxn
      exact hnot ⟨hx, by simpa using hxn⟩
    · rintro rfl hmem
      simpa using hmem.2
  have h₃ : (old.schemas.map (fun p => p.1)).filter
      (fun m => m ∈ (old.schemas.map (fun p => p.1)).filter (fun x => x ≠ n))
      = (old.schemas.map (fun p => p.1)).filter (fun x => x ≠ n) := by
    rw [List.filter_congr (q := fun x => x ≠ n)]
    intro x hx
    simp only [List.mem_filter, decide_eq_decide]
    constructor
    · intro h
      simpa using h.2
    · intro h
      exact ⟨hx, by simpa using h⟩
  simp only [h₁, h₂, h₃, List.map_cons, List.map_nil, List.nil_append,
    List.singleton_append]
  congr 1
  apply List.map_congr_left
  intro m hm
  have hmn : m ≠ n := by simpa using (List.mem_filter.mp hm).2
  unfold getSchemaD
  rw [lookupA_filter_ne old.schemas n m hmn]
  rw [if_neg (fun hne => hne rfl)]

/-- C3: removing exactly one endpoint yields exactly one `EndpointRemoved`
breaking change located at that endpoint path; removing exactly one schema
yields exactly one `SchemaRemoved` breaking change naming that schema. -/
theorem c3_removal_breaking_changes :
    (∀ (old new : ParsedSpec) (g : Option DependencyGraph) (k : String)
        (e : Endpoint),
      lookupA old.endpoints k = some e →
      new.endpoints = old.endpoints.filter (fun p => p.1 ≠ k) →
      new.schemas = old.schemas →
      (old.endpoints.map (fun p => p.1)).Nodup →
      (DiffEngine.diff old new g).breaking_changes
        = [⟨.endpointRemoved,
            "Endpoint " ++ squote ++ k ++ squote ++ " was removed", e.path⟩]) ∧
    (∀ (old new : ParsedSpec) (g : Option DependencyGraph) (n : String),
      n ∈ old.schemas.map (fun p => p.1) →
      new.schemas = old.schemas.filter (fun p => p.1 ≠ n) →
      new.endpoints = old.endpoints →
      (old.schemas.map (fun p => p.1)).Nodup →
      (DiffEngine.diff old new g).breaking_changes
        = [⟨.schemaRemoved,
            "Schema " ++ squote ++ n ++ squote ++ " was removed",
            "#/components/schemas/" ++ n⟩]) := by
  constructor
  · intro old new g k e hk hends hschemas hnd
    have hsc := compare_schemas_of_eq old new hschemas
    have hkeys : new.endpoints.map (fun p => p.1)
        = (old.endpoints.map (fun p => p.1)).filter (fun x => x ≠ k) := by
      rw [hends, map_fst_filter_ne]
    have hdedupO : (old.endpoints.map (fun p => p.1)).dedup
        = old.endpoints.map (fun p => p.1) := List.dedup_eq_self.mpr hnd
    have hdedupN : (new.endpoints.map (fun p => p.1)).dedup
        = (old.endpoints.map (fun p => p.1)).filter (fun x => x ≠ k) := by
      rw [hkeys]
      exact List.dedup_eq_self.mpr (hnd.filter _)
    have hkmem : k ∈ old.endpoints.map (fun p => p.1) := key_mem_of_lookupA hk
    have hremoved : (old.endpoints.map (fun p => p.1)).filter
        (fun x => x ∉ (old.endpoints.map (fun p => p.1)).filter
          (fun y => y ≠ k)) = [k] := by
      rw [List.filter_congr (q := fun x => x = k),
        filter_eq_singleton_of_nodup hnd hkmem]
      intro x hx
      simp only [List.mem_filter, decide_eq_true_eq, decide_eq_decide]
      constructor
      · intro hnot
        by_contra hxk
        exact hnot ⟨hx, by simpa using hxk⟩
      · rintro rfl hmem
        simpa using hmem.2
    have hgetE : getEndpointD old.endpoints k = e := by
      unfold getEndpointD
      rw [hk]
      rfl
    unfold DiffEngine.diff
    rw [hsc]
    simp only [hdedupO, hdedupN, hremoved, hgetE, List.map_cons, List.map_nil]
    rw [List.filterMap_eq_nil.mpr (by
      intro a ha
      rcases List.mem_map.mp ha with ⟨m, _, rfl⟩
      rfl)]
    rfl
  · intro old new g n hn hs hends hnd
    have hsc := compare_schemas_removed old new n hn hs hnd
    unfold DiffEngine.diff
    rw [hsc, hends]
    have hfilterMem : (old.endpoints.map (fun p => p.1)).dedup.filter
        (fun x => x ∉ (old.endpoints.map (fun p => p.1)).dedup) = [] := by
      rw [List.filter_eq_nil.mpr]
      intro a ha
      simp [ha]
    simp only [hfilterMem, List.map_nil]
    rw [List.filterMap_cons]
    simp only []
    rw [List.filterMap_eq_nil.mpr (by
      intro a ha
      rcases List.mem_map.mp ha with ⟨m, _, rfl⟩
      rfl)]
    rfl

/-! Breaking-change emission and indirect impact. -/

/-- The only categories the diff engine ever emits are schema and endpoint
removals: no other branch of `diff` pushes onto `breaking_changes`. -/
theorem diff_breaking_categories :
    ∀ (old new : ParsedSpec) (g : Option DependencyGraph),
      ∀ bc ∈ (DiffEngine.diff old new g).breaking_changes,
        bc.category = BreakingChangeCategory.schemaRemoved ∨
        bc.category = BreakingChangeCategory.endpointRemoved := by
  intro old new g bc hbc
  rcases List.mem_append.mp hbc with h | h
  · rcases List.mem_filterMap.mp h with ⟨a, _, ha⟩
    cases hm : a.2 <;> rw [hm] at ha
    · exact absurd ha (by simp)
    · exact absurd ha (by simp)
    · injection ha with ha₂
      exact Or.inl (by rw [← ha₂])
    · exact absurd ha (by simp)
  · rcases List.mem_map.mp h with ⟨k, _, hk⟩
    exact Or.inr (by rw [← hk])

/-- An endpoint present in both specs whose comparison or schema-impact set
is nonempty appears among the modified endpoints with exactly the recorded
fields. -/
theorem mem_modified_endpoints (old new : ParsedSpec)
    (g : Option DependencyGraph) (k : String) (e_old e_new : Endpoint)
    (hkold : lookupA old.endpoints k = some e_old)
    (hknew : lookupA new.endpoints k = some e_new)
    (hne : ((DiffEngine.compare_endpoints e_old e_new).isEmpty
        && (e_new.schema_refs.filter (fun r =>
          isModifiedIn (DiffEngine.compare_schemas old new) r)).isEmpty)
      = false) :
    (⟨k, e_new.path, e_new.method, e_new.operation_id, e_new.tags,
      DiffEngine.compare_endpoints e_old e_new ++
        (e_new.schema_refs.filter (fun r =>
          isModifiedIn (DiffEngine.compare_schemas old new) r)).map
          (fun r => "Affected by schema change: " ++ r),
      e_new.schema_refs.filter (fun r =>
        isModifiedIn (DiffEngine.compare_schemas old new) r)⟩ : EndpointChange)
      ∈ (DiffEngine.diff old new g).modified_endpoints := by
  have hgetOld : getEndpointD old.endpoints k = e_old := by
    unfold getEndpointD
    rw [hkold]
    rfl
  have hgetNew : getEndpointD new.endpoints k = e_new := by
    unfold getEndpointD
    rw [hknew]
    rfl
  have hkInter : k ∈ (old.endpoints.map (fun p => p.1)).dedup.filter
      (fun x => x ∈ (new.endpoints.map (fun p => p.1)).dedup) :=
    List.mem_filter.mpr
      ⟨List.mem_dedup.mpr (key_mem_of_lookupA hkold),
        by simpa using List.mem_dedup.mpr (key_mem_of_lookupA hknew)⟩
  apply List.mem_filterMap.mpr
  refine ⟨some _, ?_, rfl⟩
  apply List.mem_map.mpr
  refine ⟨k, hkInter, ?_⟩
  show (if _ = true then none else _) = _
  rw [hgetOld, hgetNew, hne]
  rw [if_neg (by simp)]

/-- C7 (amended): an endpoint present in both specs is marked modified as
soon as one of the schemas in its new-side `schema_refs` is classified
modified, and the change entry records that schema both in
`affected_by_schemas` and as a change note — for every value of the graph
argument, including `none`: the propagation is computed from the new
endpoint `schema_refs` directly, not from the graph. -/
theorem c7_indirect_impact_graph_free :
    ∀ (old new : ParsedSpec) (g : Option DependencyGraph) (k : String)
      (e_old e_new : Endpoint) (s : String),
      lookupA old.endpoints k = some e_old →
      lookupA new.endpoints k = some e_new →
      s ∈ e_new.schema_refs →
      isModifiedIn (DiffEngine.compare_schemas old new) s = true →
      ∃ ec ∈ (DiffEngine.diff old new g).modified_endpoints,
        ec.key = k ∧ s ∈ ec.affected_by_schemas ∧
        ("Affected by schema change: " ++ s) ∈ ec.changes := by
  intro old new g k e_old e_new s hkold hknew hs hmod
  have hsmem : s ∈ e_new.schema_refs.filter (fun r =>
      isModifiedIn (DiffEngine.compare_schemas old new) r) :=
    List.mem_filter.mpr ⟨hs, by simpa using hmod⟩
  have hne : ((DiffEngine.compare_endpoints e_old e_new).isEmpty
      && (e_new.schema_refs.filter (fun r =>
        isModifiedIn (DiffEngine.compare_schemas old new) r)).isEmpty)
      = false := by
    have hfl : (e_new.schema_refs.filter (fun r =>
        isModifiedIn (DiffEngine.compare_schemas old new) r)).isEmpty
        = false := by
      cases hl : e_new.schema_refs.filter (fun r =>
          isModifiedIn (DiffEngine.compare_schemas old new) r) with
      | nil =>
        rw [hl] at hsmem
        simp at hsmem
      | cons a t => rfl
    rw [hfl, Bool.and_false]
  refine ⟨_, mem_modified_endpoints old new g k e_old e_new hkold hknew hne,
    rfl, hsmem, ?_⟩
  exact List.mem_append.mpr (Or.inr (List.mem_map.mpr ⟨s, hsmem, rfl⟩))

/-- C1 (amended): with the only difference at an endpoint being one appended
parameter (plus the hash), a required parameter produces the
`Added required parameter` note in that endpoint change entry but never a
`ParameterAdded` entry in `breaking_changes` (no diff input produces one);
an optional parameter produces no parameter-specific note at all — the
entry falls back to the generic `Endpoint definition changed` note. -/
theorem c1_required_parameter_rule :
    ∀ (old new : ParsedSpec) (g : Option DependencyGraph) (k : String)
      (e_old e_new : Endpoint) (p : Parameter),
      lookupA old.endpoints k = some e_old →
      lookupA new.endpoints k = some e_new →
      e_old.hash ≠ e_new.hash →
      e_new.parameters = e_old.parameters ++ [p] →
      ((e_old.parameters ++ [p]).map (fun q => q.name)).Nodup →
      e_new.request_body = e_old.request_body →
      e_new.responses = e_old.responses →
      new.schemas = old.schemas →
      (∀ bc ∈ (DiffEngine.diff old new g).breaking_changes,
        bc.category ≠ BreakingChangeCategory.parameterAdded) ∧
      (p.required = true →
        ∃ ec ∈ (DiffEngine.diff old new g).modified_endpoints,
          ec.key = k ∧
          ec.changes = ["Added required parameter: " ++ p.name]) ∧
      (p.required = false →
        ∃ ec ∈ (DiffEngine.diff old new g).modified_endpoints,
          ec.key = k ∧ ec.changes = ["Endpoint definition changed"]) := by
  intro old new g k e_old e_new p hkold hknew hh hp hnd hb hr hschemas
  have hchanges := compare_endpoints_added_param e_old e_new p hh hp hnd hb hr
  have hsc := compare_schemas_of_eq old new hschemas
  have haffected : e_new.schema_refs.filter (fun r =>
      isModifiedIn (DiffEngine.compare_schemas old new) r) = [] := by
    rw [List.filter_eq_nil.mpr]
    intro a _
    rw [hsc, isModifiedIn_unchanged_map]
    simp
  refine ⟨?_, ?_, ?_⟩
  · intro bc hbc
    rcases diff_breaking_categories old new g bc hbc with h | h <;> rw [h] <;>
      intro hcon <;> exact absurd hcon (by simp)
  · intro hreq
    have hdirect : DiffEngine.compare_endpoints e_old e_new
        = ["Added required parameter: " ++ p.name] := by
      rw [hchanges, if_pos hreq]
    have hne : ((DiffEngine.compare_endpoints e_old e_new).isEmpty
        && (e_new.schema_refs.filter (fun r =>
          isModifiedIn (DiffEngine.compare_schemas old new) r)).isEmpty)
        = false := by
      rw [hdirect]
      rfl
    have hm := mem_modified_endpoints old new g k e_old e_new hkold hknew hne
    rw [hdirect, haffected] at hm
    exact ⟨_, hm, rfl, by simp⟩
  · intro hreq
    have hdirect : DiffEngine.compare_endpoints e_old e_new
        = ["Endpoint definition changed"] := by
      rw [hchanges, if_neg (by rw [hreq]; exact fun h => Bool.false_ne_true h)]
    have hne : ((DiffEngine.compare_endpoints e_old e_new).isEmpty
        && (e_new.schema_refs.filter (fun r =>
          isModifiedIn (DiffEngine.compare_schemas old new) r)).isEmpty)
        = false := by
      rw [hdirect]
      rfl
    have hm := mem_modified_endpoints old new g k e_old e_new hkold hknew hne
    rw [hdirect, haffected] at hm
    exact ⟨_, hm, rfl, by simp⟩

/-! Graph traversal: duplicate freedom and completeness. -/

theorem dfs_nodup (adj : List (String × List String))
    (out : String → List String) :
    ∀ (work visited acc : List String), acc.Nodup →
      (dfsCollect adj out work visited acc).Nodup := by
  intro work visited acc
  induction work, visited, acc using dfsCollect.induct adj out with
  | case1 visited acc =>
    intro h
    simpa [dfsCollect] using h
  | case2 visited acc s rest hmem ih =>
    intro h
    rw [dfsCollect, if_pos hmem]
    exact ih h
  | case3 visited acc s rest hmem ih =>
    intro h
    rw [dfsCollect, if_neg hmem]
    exact ih (nodup_insertAll h (out s))

theorem dfs_complete (adj : List (String × List String))
    (out : String → List String) :
    ∀ (work visited acc : List String),
      (∀ v ∈ visited, ∀ x ∈ out v, x ∈ acc) →
      (∀ v ∈ visited, ∀ r ∈ getD adj v, r ∈ visited ∨ r ∈ work) →
      ∀ t w, (w ∈ work ∨ w ∈ visited) →
        Relation.ReflTransGen (fun u v => v ∈ getD adj u) w t →
        ∀ x ∈ out t, x ∈ dfsCollect adj out work visited acc := by
  intro work visited acc
  induction work, visited, acc using dfsCollect.induct adj out with
  | case1 visited acc =>
    intro hv1 hv2 t w hw hwt x hx
    have hwv : w ∈ visited := by
      rcases hw with h | h
      · exact absurd h (List.not_mem_nil _)
      · exact h
    have hclosed : ∀ b, Relation.ReflTransGen (fun u v => v ∈ getD adj u) w b →
        b ∈ visited := by
      intro b hab
      induction hab with
      | refl => exact hwv
      | tail hab hstep ih =>
        rcases hv2 _ ih _ hstep with h | h
        · exact h
        · exact absurd h (List.not_mem_nil _)
    rw [dfsCollect]
    exact hv1 t (hclosed t hwt) x hx
  | case2 visited acc s rest hmem ih =>
    intro hv1 hv2 t w hw hwt x hx
    rw [dfsCollect, if_pos hmem]
    refine ih hv1 ?_ t w ?_ hwt x hx
    · intro v hv r hr
      rcases hv2 v hv r hr with h | h
      · exact Or.inl h
      · rcases List.mem_cons.mp h with rfl | h₂
        · exact Or.inl hmem
        · exact Or.inr h₂
    · rcases hw with h | h
      · rcases List.mem_cons.mp h with rfl | h₂
        · exact Or.inr hmem
        · exact Or.inl h₂
      · exact Or.inr h
  | case3 visited acc s rest hmem ih =>
    intro hv1 hv2 t w hw hwt x hx
    rw [dfsCollect, if_neg hmem]
    refine ih ?_ ?_ t w ?_ hwt x hx
    · intro v hv y hy
      rcases List.mem_cons.mp hv with rfl | h₂
      · exact mem_insertAll.mpr (Or.inr hy)
      · exact mem_insertAll.mpr (Or.inl (hv1 v h₂ y hy))
    · intro v hv r hr
      rcases List.mem_cons.mp hv with rfl | h₂
      · exact Or.inr (List.mem_append.mpr (Or.inl hr))
      · rcases hv2 v h₂ r hr with h | h
        · exact Or.inl (List.mem_cons_of_mem _ h)
        · rcases List.mem_cons.mp h with rfl | h₃
          · exact Or.inl (List.mem_cons_self _ _)
          · exact Or.inr (List.mem_append.mpr (Or.inr h₃))
    · rcases hw with h | h
      · rcases List.mem_cons.mp h with rfl | h₂
        · exact Or.inr (List.mem_cons_self _ _)
        · exact Or.inl (List.mem_append.mpr (Or.inr h₂))
      · exact Or.inr (List.mem_cons_of_mem _ h)

/-! Graph construction: edges registered by the builder. -/

theorem lookupA_append_some {β : Type} {m : List (String × β)} {k : String}
    {w : β} (l : List (String × β)) (h : lookupA m k = some w) :
    lookupA (m ++ l) k = some w := by
  induction m with
  | nil => exact absurd h (by simp [lookupA])
  | cons e rest ih =>
    obtain ⟨k₂, v⟩ := e
    show (if k₂ = k then some v else lookupA (rest ++ l) k) = some w
    unfold lookupA at h
    by_cases hk : k₂ = k
    · rw [if_pos hk] at h ⊢
      exact h
    · rw [if_neg hk] at h ⊢
      exact ih h

theorem lookupA_append_none {β : Type} {m : List (String × β)} {k : String}
    (l : List (String × β)) (h : lookupA m k = none) :
    lookupA (m ++ l) k = lookupA l k := by
  induction m with
  | nil => rfl
  | cons e rest ih =>
    obtain ⟨k₂, v⟩ := e
    show (if k₂ = k then some v else lookupA (rest ++ l) k) = _
    unfold lookupA at h
    by_cases hk : k₂ = k
    · rw [if_pos hk] at h
      exact absurd h (by simp)
    · rw [if_neg hk] at h
      rw [if_neg hk]
      exact ih h

theorem lookupA_map_keyed (m : List (String × List String)) (k₂ v k : String) :
    ∀ l, lookupA m k = some l →
      lookupA (m.map (fun e => if e.1 = k₂ then (e.1, insertNew e.2 v) else e)) k
        = some (if k = k₂ then insertNew l v else l) := by
  induction m with
  | nil => intro l h; exact absurd h (by simp [lookupA])
  | cons e rest ih =>
    obtain ⟨k₃, l₃⟩ := e
    intro l h
    show lookupA ((if k₃ = k₂ then (k₃, insertNew l₃ v) else (k₃, l₃)) ::
      rest.map _) k = _
    by_cases hk : k₃ = k
    · subst hk
      have hl : l₃ = l := by
        unfold lookupA at h
        rw [if_pos rfl] at h
        injection h
      subst hl
      by_cases hk₂ : k₃ = k₂
      · rw [if_pos hk₂]
        show (if k₃ = k₃ then some (insertNew l₃ v) else _) = _
        rw [if_pos rfl, if_pos hk₂]
      · rw [if_neg hk₂]
        show (if k₃ = k₃ then some l₃ else _) = _
        rw [if_pos rfl, if_neg hk₂]
    · have h₂ : lookupA rest k = some l := by
        unfold lookupA at h
        rwa [if_neg hk] at h
      by_cases hk₂ : k₃ = k₂
      · rw [if_pos hk₂]
        show (if k₃ = k then _ else _) = _
        rw [if_neg hk]
        exact ih l h₂
      · rw [if_neg hk₂]
        show (if k₃ = k then _ else _) = _
        rw [if_neg hk]
        exact ih l h₂

theorem lookupA_singleton_self (k : String) (l : List String) :
    lookupA [(k, l)] k = some l := by
  unfold lookupA
  rw [if_pos rfl]

theorem mem_getD_mapInsert_self (m : List (String × List String))
    (k v : String) : v ∈ getD (mapInsert m k v) k := by
  unfold mapInsert
  split
  · rename_i hany
    have hkeys : k ∈ m.map (fun e => e.1) := by
      rcases List.any_eq_true.mp hany with ⟨e, he, hek⟩
      exact List.mem_map.mpr ⟨e, he, by simpa using hek⟩
    rcases lookupA_isSome_of_mem hkeys with ⟨l, hl⟩
    unfold getD
    rw [lookupA_map_keyed m k v k l hl]
    rw [if_pos rfl]
    exact mem_insertNew.mpr (Or.inl rfl)
  · rename_i hany
    have hnone : lookupA m k = none := by
      apply lookupA_none_of_not_mem
      intro hmem
      apply hany
      rcases List.mem_map.mp hmem with ⟨e, he, hek⟩
      exact List.any_eq_true.mpr ⟨e, he, by simpa using hek⟩
    unfold getD
    rw [lookupA_append_none [(k, [v])] hnone, lookupA_singleton_self]
    exact List.mem_singleton.mpr rfl

theorem mem_getD_mapInsert_mono {m : List (String × List String)}
    {k x : String} (k₂ v : String) (h : x ∈ getD m k) :
    x ∈ getD (mapInsert m k₂ v) k := by
  unfold mapInsert
  split
  · unfold getD at h ⊢
    cases hl : lookupA m k with
    | none =>
      rw [hl] at h
      exact absurd h (List.not_mem_nil _)
    | some l =>
      rw [hl] at h
      rw [lookupA_map_keyed m k₂ v k l hl]
      show x ∈ if k = k₂ then insertNew l v else l
      split
      · exact mem_insertNew.mpr (Or.inr h)
      · exact h
  · unfold getD at h ⊢
    cases hl : lookupA m k with
    | none =>
      rw [hl] at h
      exact absurd h (List.not_mem_nil _)
    | some l =>
      rw [hl] at h
      rw [lookupA_append_some [(k₂, [v])] hl]
      exact h

theorem build_schema_refs_edge (spec : ParsedSpec) (B : String) (sB : Schema)
    (A : String) (hB : (B, sB) ∈ spec.schemas) (hA : A ∈ sB.refs) :
    B ∈ getD (GraphBuilder.build spec).schema_refs A := by
  unfold GraphBuilder.build
  have hpreserve : ∀ (g₁ : DependencyGraph),
      (spec.endpoints.foldl (fun g e => e.2.schema_refs.foldl
        (fun g r => g.add_path_schema_dep e.1 r) g) g₁).schema_refs
      = g₁.schema_refs := by
    intro g₁
    refine foldl_invariant
      (fun (g : DependencyGraph) => g.schema_refs = g₁.schema_refs)
      _ _ _ rfl ?_
    intro g a _ hInv
    refine foldl_invariant
      (fun (g₂ : DependencyGraph) => g₂.schema_refs = g₁.schema_refs)
      _ _ _ hInv ?_
    intro g₂ r _ hInv₂
    exact hInv₂
  have hmem : B ∈ getD (spec.schemas.foldl (fun g e => e.2.refs.foldl
      (fun g r => g.add_schema_schema_dep e.1 r) g)
        DependencyGraph.new).schema_refs A := by
    refine foldl_reach
      (fun (g : DependencyGraph) => B ∈ getD g.schema_refs A) _ _ (B, sB) hB
      ?_ ?_ _
    · intro g
      refine foldl_reach
        (fun (g₂ : DependencyGraph) => B ∈ getD g₂.schema_refs A) _ _ A hA
        ?_ ?_ _
      · intro g₂
        exact mem_getD_mapInsert_self g₂.schema_refs A B
      · intro g₂ r _ hInv
        exact mem_getD_mapInsert_mono r B hInv
    · intro g a _ hInv
      refine foldl_invariant
        (fun (g₂ : DependencyGraph) => B ∈ getD g₂.schema_refs A)
        _ _ _ hInv ?_
      intro g₂ r _ hInv₂
      exact mem_getD_mapInsert_mono r a.1 hInv₂
  show B ∈ getD (spec.endpoints.foldl
    (fun g e => e.2.schema_refs.foldl
      (fun g r => g.add_path_schema_dep e.1 r) g)
    (spec.schemas.foldl (fun g e => e.2.refs.foldl
      (fun g r => g.add_schema_schema_dep e.1 r) g)
      DependencyGraph.new)).schema_refs A
  rw [hpreserve]
  exact hmem

theorem build_schema_to_paths_edge (spec : ParsedSpec) (k : String)
    (E : Endpoint) (B : String) (hE : (k, E) ∈ spec.endpoints)
    (hB : B ∈ E.schema_refs) :
    k ∈ getD (GraphBuilder.build spec).schema_to_paths B := by
  unfold GraphBuilder.build
  refine foldl_reach
    (fun (g : DependencyGraph) => k ∈ getD g.schema_to_paths B) _ _ (k, E) hE
    ?_ ?_ _
  · intro g
    refine foldl_reach
      (fun (g₂ : DependencyGraph) => k ∈ getD g₂.schema_to_paths B) _ _ B hB
      ?_ ?_ _
    · intro g₂
      exact mem_getD_mapInsert_self g₂.schema_to_paths B k
    · intro g₂ r _ hInv
      exact mem_getD_mapInsert_mono r k hInv
  · intro g a _ hInv
    refine foldl_invariant
      (fun (g₂ : DependencyGraph) => k ∈ getD g₂.schema_to_paths B)
      _ _ _ hInv ?_
    intro g₂ r _ hInv₂
    exact mem_getD_mapInsert_mono r a.1 hInv₂

/-- C4: affected-path queries are transitive over reverse references. The
first part is stated on a graph built from a spec: schema `B` holding `A`
among its refs and endpoint `k` using `B` makes `k` affected by `A`. The
second part states the general closure on any graph: every endpoint directly
using any schema reachable from `A` through reverse-reference edges (that
is, any schema that transitively references `A`) is in
`get_affected_paths A`, reflexively including endpoints directly using
`A`. -/
theorem c4_affected_paths_transitivity :
    (∀ (spec : ParsedSpec) (A B : String) (sB : Schema) (k : String)
        (E : Endpoint),
      (B, sB) ∈ spec.schemas → A ∈ sB.refs →
      (k, E) ∈ spec.endpoints → B ∈ E.schema_refs →
      k ∈ (GraphBuilder.build spec).get_affected_paths A) ∧
    (∀ (g : DependencyGraph) (A s k : String),
      Relation.ReflTransGen (fun u v => v ∈ getD g.schema_refs u) A s →
      k ∈ getD g.schema_to_paths s →
      k ∈ g.get_affected_paths A) := by
  have hgen : ∀ (g : DependencyGraph) (A s k : String),
      Relation.ReflTransGen (fun u v => v ∈ getD g.schema_refs u) A s →
      k ∈ getD g.schema_to_paths s →
      k ∈ g.get_affected_paths A := by
    intro g A s k hchain hk
    unfold DependencyGraph.get_affected_paths
    refine dfs_complete g.schema_refs _ [A] [] [] ?_ ?_ s A ?_ hchain k hk
    · intro v hv
      exact absurd hv (List.not_mem_nil _)
    · intro v hv
      exact absurd hv (List.not_mem_nil _)
    · exact Or.inl (List.mem_cons_self _ _)
  refine ⟨?_, hgen⟩
  intro spec A B sB k E hB hA hE hkB
  exact hgen (GraphBuilder.build spec) A B k
    (Relation.ReflTransGen.single (build_schema_refs_edge spec B sB A hB hA))
    (build_schema_to_paths_edge spec k E B hE hkB)

/-- C5: every graph query is total (the functions are well-founded Lean
definitions, so termination is by construction even on cyclic reference
graphs) and returns duplicate-free lists, assuming the stored adjacency
sets are themselves duplicate-free as Rust `HashSet`s guarantee. -/
theorem c5_queries_terminate_nodup :
    ∀ (g : DependencyGraph) (target : String), WFGraph g →
      (g.get_affected_paths target).Nodup ∧
      (g.get_schema_dependents target).Nodup ∧
      (g.get_path_schemas target).Nodup ∧
      (∀ (d : DependencyDirection) (b : Bool),
        (g.query target d b).affected_paths.Nodup ∧
        (g.query target d b).affected_schemas.Nodup) := by
  intro g target hwf
  have hgetD_nodup : ∀ (m : List (String × List String)),
      (∀ e ∈ m, e.2.Nodup) → ∀ k, (getD m k).Nodup := by
    intro m hm k
    unfold getD
    cases hl : lookupA m k with
    | none => exact List.nodup_nil
    | some l => exact hm (k, l) (mem_of_lookupA hl)
  have h₁ : (g.get_affected_paths target).Nodup :=
    dfs_nodup _ _ _ _ _ List.nodup_nil
  have h₂ : (g.get_schema_dependents target).Nodup :=
    dfs_nodup _ _ _ _ _ List.nodup_nil
  have h₃ : (g.get_path_schemas target).Nodup := by
    unfold DependencyGraph.get_path_schemas
    refine foldl_invariant (fun (acc : List String) => acc.Nodup)
      _ _ _ List.nodup_nil ?_
    intro acc d _ hInv
    exact dfs_nodup _ _ _ _ _ hInv
  refine ⟨h₁, h₂, h₃, ?_⟩
  intro d b
  cases b with
  | false => exact ⟨List.nodup_nil, h₃⟩
  | true =>
    cases d with
    | downstream => exact ⟨h₁, h₂⟩
    | upstream =>
      exact ⟨List.nodup_nil, hgetD_nodup g.schema_to_schemas hwf.2.2.1 target⟩
    | both => exact ⟨h₁, nodup_insertAll h₂ _⟩

/-- C6: for a schema target, the upstream direction returns exactly the
direct forward references (one hop, no transitivity) and no affected paths,
while the both direction is the member-wise union of the downstream result
and the upstream result. -/
theorem c6_query_directions :
    ∀ (g : DependencyGraph) (target : String),
      (g.query target .upstream true).affected_paths = [] ∧
      (∀ x, x ∈ (g.query target .upstream true).affected_schemas ↔
        x ∈ getD g.schema_to_schemas target) ∧
      (∀ x, x ∈ (g.query target .both true).affected_paths ↔
        x ∈ (g.query target .downstream true).affected_paths ∨
        x ∈ (g.query target .upstream true).affected_paths) ∧
      (∀ x, x ∈ (g.query target .both true).affected_schemas ↔
        x ∈ (g.query target .downstream true).affected_schemas ∨
        x ∈ (g.query target .upstream true).affected_schemas) := by
  intro g target
  refine ⟨rfl, fun x => Iff.rfl, fun x => ?_, fun x => ?_⟩
  · show x ∈ g.get_affected_paths target ↔
      x ∈ g.get_affected_paths target ∨ x ∈ ([] : List String)
    constructor
    · exact Or.inl
    · rintro (h | h)
      · exact h
      · exact absurd h (List.not_mem_nil _)
  · show x ∈ insertAll (g.get_schema_dependents target)
        (getD g.schema_to_schemas target) ↔ _
    rw [mem_insertAll]
    exact Iff.rfl

/-! Witnesses and counterexamples on concrete inputs. -/

/-- C1 counterexample: adding a required parameter to an endpoint (the only
difference besides the hash) leaves `breaking_changes` empty — no
`ParameterAdded` breaking change is produced; the information surfaces only
as a note in the endpoint change list. -/
theorem c1_counterexample :
    (DiffEngine.diff c1old c1new none).breaking_changes = [] ∧
    (DiffEngine.diff c1old c1new none).modified_endpoints.map
        (fun ec => ec.changes)
      = [["Added required parameter: q"]] := by decide

/-- Witness for the amended C1 at the concrete one-endpoint specs. -/
theorem c1_witness :
    ∃ ec ∈ (DiffEngine.diff c1old c1new none).modified_endpoints,
      ec.key = "get:/a" ∧ ec.changes = ["Added required parameter: q"] :=
  (c1_required_parameter_rule c1old c1new none "get:/a" epA epAq paramQ
    (by decide) (by decide) (by decide) (by decide) (by decide)
    rfl rfl rfl).2.1 rfl

/-- Witness for C2 at a concrete one-endpoint one-schema spec. -/
theorem c2_witness :
    (DiffEngine.diff specOne specOne none).added_endpoints = [] ∧
    (DiffEngine.diff specOne specOne none).modified_endpoints = [] ∧
    (DiffEngine.diff specOne specOne none).removed_endpoints = [] ∧
    (DiffEngine.diff specOne specOne none).added_schemas = [] ∧
    (DiffEngine.diff specOne specOne none).modified_schemas = [] ∧
    (DiffEngine.diff specOne specOne none).removed_schemas = [] ∧
    (DiffEngine.diff specOne specOne none).breaking_changes = [] ∧
    (DiffEngine.diff specOne specOne none).unchanged_endpoints
      = specOne.endpoints.length ∧
    (DiffEngine.diff specOne specOne none).unchanged_schemas
      = specOne.schemas.length :=
  c2_self_diff_identity specOne none (by decide) (by decide)

/-- Witness for C3: removing `get:/b` yields exactly its
`EndpointRemoved` entry, removing `S` exactly its `SchemaRemoved` entry. -/
theorem c3_witness :
    (DiffEngine.diff c3old c3newE none).breaking_changes
      = [⟨.endpointRemoved,
          "Endpoint " ++ squote ++ "get:/b" ++ squote ++ " was removed",
          "/b"⟩] ∧
    (DiffEngine.diff c3old c3newS none).breaking_changes
      = [⟨.schemaRemoved,
          "Schema " ++ squote ++ "S" ++ squote ++ " was removed",
          "#/components/schemas/" ++ "S"⟩] :=
  ⟨c3_removal_breaking_changes.1 c3old c3newE none "get:/b" epB
      (by decide) rfl rfl (by decide),
   c3_removal_breaking_changes.2 c3old c3newS none "S"
      (by decide) rfl rfl (by decide)⟩

/-- Witness for C4: on the concrete spec, the endpoint using `B` is
affected by `A` (via `B` referencing `A`); and on the concrete graph, the
endpoint directly using `U` is affected by `U` (reflexive chain). -/
theorem c4_witness :
    "get:/useB" ∈ (GraphBuilder.build c4spec).get_affected_paths "A" ∧
    "get:/u" ∈ gW.get_affected_paths "U" :=
  ⟨c4_affected_paths_transitivity.1 c4spec "A" "B" schemaB "get:/useB" epUsesB
      (List.mem_cons_self _ _) (by decide) (List.mem_cons_self _ _)
      (by decide),
   c4_affected_paths_transitivity.2 gW "U" "U" "get:/u"
      Relation.ReflTransGen.refl (by decide)⟩

/-- Witness for C5 on the concrete cyclic graph. -/
theorem c5_witness :
    (gW.get_affected_paths "U").Nodup ∧
    (gW.get_schema_dependents "U").Nodup ∧
    (gW.get_path_schemas "U").Nodup ∧
    (∀ (d : DependencyDirection) (b : Bool),
      (gW.query "U" d b).affected_paths.Nodup ∧
      (gW.query "U" d b).affected_schemas.Nodup) :=
  c5_queries_terminate_nodup gW "U" (by decide)

/-- C7 counterexample: with the graph argument `none`, an endpoint whose
schema was modified is still marked modified and records the schema — the
propagation does not require any graph, contradicting the claim that it
requires a graph built from the new spec. -/
theorem c7_counterexample :
    (DiffEngine.diff c7old c7new none).modified_endpoints.map
        (fun ec => (ec.key, ec.affected_by_schemas, ec.changes))
      = [("get:/e", ["S"], ["Affected by schema change: S"])] := by decide

/-- Witness for the amended C7 at the concrete specs, with no graph. -/
theorem c7_witness :
    ∃ ec ∈ (DiffEngine.diff c7old c7new none).modified_endpoints,
      ec.key = "get:/e" ∧ "S" ∈ ec.affected_by_schemas ∧
      ("Affected by schema change: " ++ "S") ∈ ec.changes :=
  c7_indirect_impact_graph_free c7old c7new none "get:/e" epE epE "S"
    (by decide) (by decide) (by decide) (by decide)

end Oas

